import Mathlib

/-!
Verification of the compiler front-end in src/Compilador.py: the regex
lexer `lex`, the recursive-descent `Parser`, and `generate_code`, together
with the pipeline `compile` = tokenize, parse, generate.
-/

namespace Compilador

/-- ASCII decimal digit, the regex class \d restricted to the inputs in play. -/
def isDigitChar (c : Char) : Bool := 48 ≤ c.toNat && c.toNat ≤ 57

/-- ASCII letter, the regex class a-zA-Z. -/
def isAlphaChar (c : Char) : Bool :=
  (65 ≤ c.toNat && c.toNat ≤ 90) || (97 ≤ c.toNat && c.toNat ≤ 122)

/-- Word character, the regex class \w: letter, digit or underscore. -/
def isWordChar (c : Char) : Bool := isAlphaChar c || isDigitChar c || c == '_'

/-- Whitespace, the regex class \s. -/
def isSpaceChar (c : Char) : Bool :=
  c == ' ' || c == '\t' || c == '\n' || c == '\r' || c == '\x0b' || c == '\x0c'

/-- Decimal digit character of a value below ten. -/
def digitChar : Nat → Char
  | 0 => '0' | 1 => '1' | 2 => '2' | 3 => '3' | 4 => '4'
  | 5 => '5' | 6 => '6' | 7 => '7' | 8 => '8' | _ => '9'

/-- Decimal digit list of a natural number below the fuel bound, most
significant first. -/
def natDigitsF : Nat → Nat → List Char
  | 0, _ => []
  | f + 1, n => if n < 10 then [digitChar n] else natDigitsF f (n / 10) ++ [digitChar (n % 10)]

/-- Decimal digit list of a natural number, most significant first. -/
def natDigits (n : Nat) : List Char := natDigitsF (n + 1) n

/-- Decimal string of a natural number, as Python str renders it. -/
def natStr (n : Nat) : String := ⟨natDigits n⟩

/-- Python int() on a string of decimal digits. -/
def strToNat (s : String) : Nat := s.data.foldl (fun a c => 10 * a + (c.toNat - 48)) 0

/-- Python int() on a lexed NUMBER lexeme, as an integer. -/
def strToInt (s : String) : Int := Int.ofNat (strToNat s)

/-- Python str() on an integer. -/
def intToString (v : Int) : String :=
  if v < 0 then "-" ++ natStr v.natAbs else natStr v.toNat

/-- A token is a pair of the token name and the matched lexeme,
mirroring the tuples built by lex in Compilador.py. -/
abbrev Token := String × String

/-- True when the next character, if any, is not a word character: the
regex word boundary test used by the patterns for the keywords. -/
def noWordNext (l : List Char) : Bool :=
  match l.head? with
  | some c => !(isWordChar c)
  | none => true

/-- The start set of the IDENTIFIER pattern, the regex class a-zA-Z_. -/
def isIdentStart (c : Char) : Bool := isAlphaChar c || c == '_'

/-- The decision taken by re.finditer at one position for the
TOKEN_REGEX alternation of Compilador.py: the alternation is tried in
declared order and the first pattern that matches wins (WHITESPACE
matches and positions where nothing matches yield no token).  Returns
the produced token if any, whether the last character now behind the
cursor is a word character (which decides the leading word boundary of
the keyword patterns at the next position), and the remaining input. -/
def lexDecide (p : Bool) (c : Char) (cs : List Char) : Option Token × Bool × List Char :=
  if c == 'i' && cs.head? == some 'f' && !p && noWordNext (cs.drop 1) then
    (some ("IF", "if"), true, cs.drop 1)
  else if c == 'e' && cs.take 3 == ['l', 's', 'e'] && !p && noWordNext (cs.drop 3) then
    (some ("ELSE", "else"), true, cs.drop 3)
  else if isDigitChar c then
    (some ("NUMBER", ⟨List.takeWhile isDigitChar (c :: cs)⟩), true, List.dropWhile isDigitChar cs)
  else if c == '+' then (some ("PLUS", "+"), false, cs)
  else if c == '-' then (some ("MINUS", "-"), false, cs)
  else if c == '*' then (some ("MULTIPLY", "*"), false, cs)
  else if c == '/' then (some ("DIVIDE", "/"), false, cs)
  else if c == '(' then (some ("LPAREN", "("), false, cs)
  else if c == ')' then (some ("RPAREN", ")"), false, cs)
  else if c == '\x7b' then (some ("LBRACE", "\x7b"), false, cs)
  else if c == '\x7d' then (some ("RBRACE", "\x7d"), false, cs)
  else if c == ';' then (some ("SEMICOLON", ";"), false, cs)
  else if c == '=' && cs.head? == some '=' then (some ("EQ", "=="), false, cs.drop 1)
  else if c == '!' && cs.head? == some '=' then (some ("NEQ", "!="), false, cs.drop 1)
  else if c == '<' then (some ("LT", "<"), false, cs)
  else if c == '>' then (some ("GT", ">"), false, cs)
  else if c == '<' && cs.head? == some '=' then (some ("LE", "<="), false, cs.drop 1)
  else if c == '>' && cs.head? == some '=' then (some ("GE", ">="), false, cs.drop 1)
  else if c == '=' then (some ("ASSIGN", "="), false, cs)
  else if isIdentStart c then
    (some ("IDENTIFIER", ⟨List.takeWhile isWordChar (c :: cs)⟩), true, List.dropWhile isWordChar cs)
  else if isSpaceChar c then (none, false, List.dropWhile isSpaceChar cs)
  else (none, isWordChar c, cs)

/-- Helper for peeling one alternation layer in length bounds. -/
theorem ite_rest_length_le {cond : Prop} [Decidable cond]
    {x y : Option Token × Bool × List Char} {cs : List Char}
    (hx : x.2.2.length ≤ cs.length) (hy : y.2.2.length ≤ cs.length) :
    (if cond then x else y).2.2.length ≤ cs.length := by
  split
  · exact hx
  · exact hy

set_option maxHeartbeats 2000000 in
/-- The remaining input after one lexing decision never grows.  Stated
before lexAux because its termination argument needs it. -/
theorem lexDecide_rest_le (p : Bool) (c : Char) (cs : List Char) :
    (lexDecide p c cs).2.2.length ≤ cs.length := by
  unfold lexDecide
  repeat' apply ite_rest_length_le
  all_goals first
    | (show (List.drop 1 cs).length ≤ cs.length
       rw [List.length_drop]; exact Nat.sub_le _ _)
    | (show (List.drop 3 cs).length ≤ cs.length
       rw [List.length_drop]; exact Nat.sub_le _ _)
    | (show (List.dropWhile isDigitChar cs).length ≤ cs.length
       exact (List.dropWhile_sublist _).length_le)
    | (show (List.dropWhile isWordChar cs).length ≤ cs.length
       exact (List.dropWhile_sublist _).length_le)
    | (show (List.dropWhile isSpaceChar cs).length ≤ cs.length
       exact (List.dropWhile_sublist _).length_le)
    | exact Nat.le_refl _

/-- One left-to-right pass of re.finditer over TOKEN_REGEX, dropping
WHITESPACE matches as lex does.  The flag p records whether the previous
character is a word character. -/
def lexAux (p : Bool) (l : List Char) : List Token :=
  match l with
  | [] => []
  | c :: cs =>
    let d := lexDecide p c cs
    let tail := lexAux d.2.1 d.2.2
    match d.1 with
    | some t => t :: tail
    | none => tail
termination_by l.length
decreasing_by
simp only [List.length_cons]
exact Nat.lt_succ_of_le (lexDecide_rest_le p c cs)

/-- Fueled clone of lexAux, structurally recursive so that the kernel can
evaluate it; it agrees with lexAux whenever the fuel covers the input
length (lexAux_eq_lexF below). -/
def lexF : Nat → Bool → List Char → List Token
  | 0, _, _ => []
  | n + 1, p, l =>
    match l with
    | [] => []
    | c :: cs =>
      let d := lexDecide p c cs
      let tail := lexF n d.2.1 d.2.2
      match d.1 with
      | some t => t :: tail
      | none => tail

/-- The lexer of Compilador.py: tokens of the source text, in order,
whitespace dropped. -/
def lex (code : String) : List Token := lexAux false code.data

/-- The AST node variants of Compilador.py.  The assignment target is a
full node, as in the Python class, whose generator assumes it carries a
name. -/
inductive Node where
  | num (value : Int)
  | ident (name : String)
  | binop (left : Node) (op : String) (right : Node)
  | assign (target : Node) (value : Node)
  | ifStmt (condition : Node) (thenBranch : Node) (elseBranch : Option Node)
  | block (statements : List Node)

mutual

/-- generate_code of Compilador.py.  The result is none exactly when the
Python code would crash or raise while rendering: an assignment whose
target carries no name. -/
def generate_code : Node → Option String
  | .num v => some (intToString v)
  | .ident n => some n
  | .binop l op r => do
      let ls ← generate_code l
      let rs ← generate_code r
      some ("(" ++ ls ++ " " ++ op ++ " " ++ rs ++ ")")
  | .assign t v =>
      match t with
      | .ident n => do
          let vs ← generate_code v
          some (n ++ " = " ++ vs ++ ";")
      | _ => none
  | .ifStmt c tb eb => do
      let cond ← generate_code c
      let thenS ← generate_code tb
      let elseS ← match eb with
        | some e => generate_code e
        | none => some ""
      some ("if (" ++ cond ++ ") \x7b\n  " ++ thenS ++ "\n\x7d" ++
        (if elseS == "" then "" else " else \x7b\n  " ++ elseS ++ "\n\x7d"))
  | .block stmts => do
      let ss ← generateList stmts
      some (String.intercalate "\n" ss)

/-- Renders each statement of a block in order, failing on the first
failure, as the generator expression inside join does. -/
def generateList : List Node → Option (List String)
  | [] => some []
  | s :: rest => do
      let x ← generate_code s
      let xs ← generateList rest
      some (x :: xs)

end

namespace Parser

/-- Parser.expect of Compilador.py: consume the current token when its
kind matches, otherwise fail with the expected kind and the actual lexeme
or EOF.  The token list head plays the role of current_token. -/
def expect (tokenType : String) (ts : List Token) : Except String (List Token) :=
  match ts with
  | (k, v) :: rest =>
      if k == tokenType then .ok rest
      else .error ("Esperado \x27" ++ tokenType ++ "\x27 mas encontrado \x27" ++ v ++ "\x27")
  | [] => .error ("Esperado \x27" ++ tokenType ++ "\x27 mas encontrado \x27EOF\x27")

/-- The crash message standing for the Python TypeError raised when
statement dereferences current_token while it is None. -/
def noneTypeMsg : String := "TypeError: NoneType nao e subscritavel"

/-- The message standing for fuel exhaustion; unreachable for the runs the
theorems below describe. -/
def fuelMsg : String := "fuel esgotado"

mutual

/-- Parser.statement: dispatch on the current token kind, with one token
of lookahead for assignments. -/
def statement : Nat → List Token → Except String (Node × List Token)
  | 0, _ => .error fuelMsg
  | fuel + 1, ts =>
    match ts with
    | [] => .error noneTypeMsg
    | (k, _) :: rest =>
      if k == "IF" then if_statement fuel ts
      else if k == "IDENTIFIER" && rest.head?.map Prod.fst == some "ASSIGN" then
        assignment fuel ts
      else do
        let (e, ts1) ← expr fuel ts
        let ts2 ← expect "SEMICOLON" ts1
        .ok (e, ts2)

/-- Parser.if_statement. -/
def if_statement : Nat → List Token → Except String (Node × List Token)
  | 0, _ => .error fuelMsg
  | fuel + 1, ts => do
    let ts1 ← expect "IF" ts
    let ts2 ← expect "LPAREN" ts1
    let (cond, ts3) ← expr fuel ts2
    let ts4 ← expect "RPAREN" ts3
    let (thenB, ts5) ← block_or_statement fuel ts4
    match ts5 with
    | (k, _) :: rest =>
      if k == "ELSE" then do
        let (elseB, ts6) ← block_or_statement fuel rest
        .ok (.ifStmt cond thenB (some elseB), ts6)
      else .ok (.ifStmt cond thenB none, ts5)
    | [] => .ok (.ifStmt cond thenB none, ts5)

/-- Parser.block_or_statement. -/
def block_or_statement : Nat → List Token → Except String (Node × List Token)
  | 0, _ => .error fuelMsg
  | fuel + 1, ts =>
    match ts with
    | (k, _) :: _ =>
      if k == "LBRACE" then do
        let ts1 ← expect "LBRACE" ts
        let (stmts, ts2) ← blockItems fuel [] ts1
        let ts3 ← expect "RBRACE" ts2
        .ok (.block stmts, ts3)
      else statement fuel ts
    | [] => statement fuel ts

/-- The while loop inside Parser.block_or_statement, collecting statements
until the closing brace or the end of input. -/
def blockItems : Nat → List Node → List Token → Except String (List Node × List Token)
  | 0, _, _ => .error fuelMsg
  | fuel + 1, acc, ts =>
    match ts with
    | (k, _) :: _ =>
      if k == "RBRACE" then .ok (acc, ts)
      else do
        let (s, ts1) ← statement fuel ts
        blockItems fuel (acc ++ [s]) ts1
    | [] => .ok (acc, ts)

/-- Parser.assignment: the target name is read off the current token
before the IDENTIFIER kind is checked, as in the Python code. -/
def assignment : Nat → List Token → Except String (Node × List Token)
  | 0, _ => .error fuelMsg
  | fuel + 1, ts =>
    match ts with
    | (_, v) :: _ => do
      let ts1 ← expect "IDENTIFIER" ts
      let ts2 ← expect "ASSIGN" ts1
      let (val, ts3) ← expr fuel ts2
      let ts4 ← expect "SEMICOLON" ts3
      .ok (.assign (.ident v) val, ts4)
    | [] => .error noneTypeMsg

/-- Parser.expr: a term, then the shared additive and comparison level. -/
def expr : Nat → List Token → Except String (Node × List Token)
  | 0, _ => .error fuelMsg
  | fuel + 1, ts => do
    let (t, ts1) ← term fuel ts
    exprOps fuel t ts1

/-- The while loop inside Parser.expr, left-associating PLUS, MINUS, EQ,
NEQ, LT, GT, LE, GE. -/
def exprOps : Nat → Node → List Token → Except String (Node × List Token)
  | 0, _, _ => .error fuelMsg
  | fuel + 1, acc, ts =>
    match ts with
    | (k, v) :: rest =>
      if k == "PLUS" || k == "MINUS" || k == "EQ" || k == "NEQ" ||
         k == "LT" || k == "GT" || k == "LE" || k == "GE" then do
        let (rhs, ts1) ← term fuel rest
        exprOps fuel (.binop acc v rhs) ts1
      else .ok (acc, ts)
    | [] => .ok (acc, ts)

/-- Parser.term: a factor, then the multiplicative level. -/
def term : Nat → List Token → Except String (Node × List Token)
  | 0, _ => .error fuelMsg
  | fuel + 1, ts => do
    let (f, ts1) ← factor fuel ts
    termOps fuel f ts1

/-- The while loop inside Parser.term, left-associating MULTIPLY and
DIVIDE. -/
def termOps : Nat → Node → List Token → Except String (Node × List Token)
  | 0, _, _ => .error fuelMsg
  | fuel + 1, acc, ts =>
    match ts with
    | (k, v) :: rest =>
      if k == "MULTIPLY" || k == "DIVIDE" then do
        let (rhs, ts1) ← factor fuel rest
        termOps fuel (.binop acc v rhs) ts1
      else .ok (acc, ts)
    | [] => .ok (acc, ts)

/-- Parser.factor: number, identifier or parenthesized expression,
otherwise a syntax error naming the unexpected lexeme or the end of
input. -/
def factor : Nat → List Token → Except String (Node × List Token)
  | 0, _ => .error fuelMsg
  | fuel + 1, ts =>
    match ts with
    | [] => .error "Erro de sintaxe: token inesperado no final da entrada"
    | (k, v) :: rest =>
      if k == "NUMBER" then .ok (.num (strToInt v), rest)
      else if k == "IDENTIFIER" then .ok (.ident v, rest)
      else if k == "LPAREN" then do
        let (e, ts1) ← expr fuel rest
        let ts2 ← expect "RPAREN" ts1
        .ok (e, ts2)
      else .error ("Erro de sintaxe: token inesperado \x27" ++ v ++ "\x27")

end

/-- The while loop inside Parser.parse, reading statements until the token
stream is exhausted. -/
def programItems : Nat → List Node → List Token → Except String (Node × List Token)
  | 0, _, _ => .error fuelMsg
  | fuel + 1, acc, ts =>
    match ts with
    | [] => .ok (.block acc, [])
    | _ :: _ => do
      let (s, ts1) ← statement fuel ts
      programItems fuel (acc ++ [s]) ts1

/-- Parser.parse of Compilador.py, run with enough fuel for any
terminating run on the given tokens. -/
def parse (ts : List Token) : Except String Node :=
  (programItems (8 * ts.length + 8) [] ts).map Prod.fst

end Parser

/-- The pipeline exposed to the user interface: tokenize, parse, generate.
A generation crash is surfaced as an error, as any exception would be. -/
def compile (s : String) : Except String String :=
  match Parser.parse (lex s) with
  | .error e => .error e
  | .ok ast =>
    match generate_code ast with
    | some out => .ok out
    | none => .error "AttributeError: no atribuido sem nome"

/-- Kernel-computable clone of compile, built on the fueled lexer clone;
equal to compile by compile_eq_compileF. -/
def compileF (s : String) : Except String String :=
  match Parser.parse (lexF s.data.length false s.data) with
  | .error e => .error e
  | .ok ast =>
    match generate_code ast with
    | some out => .ok out
    | none => .error "AttributeError: no atribuido sem nome"

instance : DecidableEq (Except String String) := fun a b =>
  match a, b with
  | .ok x, .ok y =>
      if h : x = y then .isTrue (by rw [h]) else .isFalse (fun hh => by cases hh; exact h rfl)
  | .error x, .error y =>
      if h : x = y then .isTrue (by rw [h]) else .isFalse (fun hh => by cases hh; exact h rfl)
  | .ok _, .error _ => .isFalse (fun hh => by cases hh)
  | .error _, .ok _ => .isFalse (fun hh => by cases hh)

/-- True when, at a position holding character c followed by cs with
previous-word flag p, none of the lexical patterns of TOKEN_REGEX
matches: the negation of every guard tried by lexDecide.  re.finditer
simply skips such a position. -/
def noPatternAt (p : Bool) (c : Char) (cs : List Char) : Bool :=
  !(c == 'i' && cs.head? == some 'f' && !p && noWordNext (cs.drop 1)) &&
  !(c == 'e' && cs.take 3 == ['l', 's', 'e'] && !p && noWordNext (cs.drop 3)) &&
  !(isDigitChar c) && !(c == '+') && !(c == '-') && !(c == '*') && !(c == '/') &&
  !(c == '(') && !(c == ')') && !(c == '\x7b') && !(c == '\x7d') && !(c == ';') &&
  !(c == '=') && !(c == '!' && cs.head? == some '=') && !(c == '<') && !(c == '>') &&
  !(isIdentStart c) && !(isSpaceChar c)

/-- A string matching the IDENTIFIER pattern as a whole word: a letter or
underscore followed by word characters. -/
def isValidIdent (s : String) : Bool :=
  match s.data with
  | [] => false
  | c :: cs => isIdentStart c && cs.all isWordChar

/-- The token kind the lexer actually produces for each of the operator
lexemes reachable from source text. -/
def opTokenKind (op : String) : String :=
  if op = "+" then "PLUS" else if op = "-" then "MINUS"
  else if op = "*" then "MULTIPLY" else if op = "/" then "DIVIDE"
  else if op = "==" then "EQ" else if op = "!=" then "NEQ"
  else if op = "<" then "LT" else if op = ">" then "GT" else "NONE"

/-- Well-formed expression tree: a BinOp tree over nonnegative literals
and valid non-keyword identifiers, whose operators are the eight operator
lexemes that the lexer can reproduce. -/
def exprWF : Node → Bool
  | .num v => decide (0 ≤ v)
  | .ident n => isValidIdent n && !(n == "if") && !(n == "else")
  | .binop l op r =>
      (op == "+" || op == "-" || op == "*" || op == "/" ||
       op == "==" || op == "!=" || op == "<" || op == ">") && exprWF l && exprWF r
  | _ => false

/-- Whether a node is a BinOp. -/
def isBinOpNode : Node → Bool
  | .binop _ _ _ => true
  | _ => false

/-- Total mirror of generate_code on expression nodes. -/
def gstr : Node → String
  | .num v => intToString v
  | .ident n => n
  | .binop l op r => "(" ++ gstr l ++ " " ++ op ++ " " ++ gstr r ++ ")"
  | _ => ""

/-- The token sequence the lexer produces for the rendering of a
well-formed expression tree. -/
def exprTokens : Node → List Token
  | .num v => [("NUMBER", natStr v.toNat)]
  | .ident n => [("IDENTIFIER", n)]
  | .binop l op r =>
      ("LPAREN", "(") :: exprTokens l ++ (opTokenKind op, op) :: exprTokens r ++ [("RPAREN", ")")]
  | _ => []

/-- Size of an expression tree, for induction. -/
def exprSize : Node → Nat
  | .binop l _ r => exprSize l + exprSize r + 1
  | _ => 1

/-- Whether the rendering of an expression node ends in a word
character, so that lexing what follows starts with the previous-word flag
set. -/
def endsWord : Node → Bool
  | .num _ => true
  | .ident _ => true
  | _ => false

/-- The following characters do not extend the final token of the
rendering of the given expression node: no digit after a literal, no word
character after an identifier. -/
def sepOK (t : Node) (cs : List Char) : Prop :=
  ∀ c, cs.head? = some c →
    (match t with
     | .num _ => isDigitChar c = false
     | .ident _ => isWordChar c = false
     | _ => True)

/-- Whether a node is an Identifier. -/
def isIdentNode : Node → Bool
  | .ident _ => true
  | _ => false

/-- Membership in the fixed operator set of the data model. -/
def opInSet (op : String) : Bool :=
  op == "+" || op == "-" || op == "*" || op == "/" || op == "==" || op == "!=" ||
  op == "<" || op == ">" || op == "<=" || op == ">="

mutual

/-- The data-model invariants checkable on a tree: every Assignment
target is an Identifier and every BinOp operator lies in the fixed
operator set. -/
def astWF : Node → Bool
  | .num _ => true
  | .ident _ => true
  | .binop l op r => opInSet op && astWF l && astWF r
  | .assign t v => isIdentNode t && astWF t && astWF v
  | .ifStmt c tb eb => astWF c && astWF tb && astWFOpt eb
  | .block ss => astWFList ss

/-- astWF on every statement of a block. -/
def astWFList : List Node → Bool
  | [] => true
  | s :: rest => astWF s && astWFList rest

/-- astWF on an optional else branch. -/
def astWFOpt : Option Node → Bool
  | none => true
  | some e => astWF e

end

mutual

/-- True when no IfStatement in the tree carries an else branch. -/
def noElseNode : Node → Bool
  | .num _ => true
  | .ident _ => true
  | .binop l _ r => noElseNode l && noElseNode r
  | .assign t v => noElseNode t && noElseNode v
  | .ifStmt c tb eb =>
      noElseNode c && noElseNode tb && (match eb with | none => true | some _ => false)
  | .block ss => noElseList ss

/-- noElseNode on every statement of a block. -/
def noElseList : List Node → Bool
  | [] => true
  | s :: rest => noElseNode s && noElseList rest

end

/-- A token whose lexeme is consistent with its kind for the operator
kinds, as every token produced by the lexer is. -/
def opLexemeOK (t : Token) : Bool :=
  (t.1 != "PLUS" || t.2 == "+") && (t.1 != "MINUS" || t.2 == "-") &&
  (t.1 != "MULTIPLY" || t.2 == "*") && (t.1 != "DIVIDE" || t.2 == "/") &&
  (t.1 != "EQ" || t.2 == "==") && (t.1 != "NEQ" || t.2 == "!=") &&
  (t.1 != "LT" || t.2 == "<") && (t.1 != "GT" || t.2 == ">") &&
  (t.1 != "LE" || t.2 == "<=") && (t.1 != "GE" || t.2 == ">=")

/-- Invariant contract of factor at a fuel: on kind-consistent tokens a
successful parse yields a well-formed, else-free tree and a suffix of
the input. -/
abbrev FactorInv (fuel : Nat) : Prop :=
  ∀ ts n ts', Parser.factor fuel ts = .ok (n, ts') →
    (∀ tok ∈ ts, opLexemeOK tok = true) →
    astWF n = true ∧ noElseNode n = true ∧ ts' ⊆ ts

/-- Invariant contract of term at a fuel. -/
abbrev TermInv (fuel : Nat) : Prop :=
  ∀ ts n ts', Parser.term fuel ts = .ok (n, ts') →
    (∀ tok ∈ ts, opLexemeOK tok = true) →
    astWF n = true ∧ noElseNode n = true ∧ ts' ⊆ ts

/-- Invariant contract of the multiplicative loop at a fuel. -/
abbrev TermOpsInv (fuel : Nat) : Prop :=
  ∀ acc ts n ts', Parser.termOps fuel acc ts = .ok (n, ts') →
    (∀ tok ∈ ts, opLexemeOK tok = true) →
    astWF acc = true → noElseNode acc = true →
    astWF n = true ∧ noElseNode n = true ∧ ts' ⊆ ts

/-- Invariant contract of expr at a fuel. -/
abbrev ExprInv (fuel : Nat) : Prop :=
  ∀ ts n ts', Parser.expr fuel ts = .ok (n, ts') →
    (∀ tok ∈ ts, opLexemeOK tok = true) →
    astWF n = true ∧ noElseNode n = true ∧ ts' ⊆ ts

/-- Invariant contract of the additive and comparison loop at a fuel. -/
abbrev ExprOpsInv (fuel : Nat) : Prop :=
  ∀ acc ts n ts', Parser.exprOps fuel acc ts = .ok (n, ts') →
    (∀ tok ∈ ts, opLexemeOK tok = true) →
    astWF acc = true → noElseNode acc = true →
    astWF n = true ∧ noElseNode n = true ∧ ts' ⊆ ts

/-- Invariant contract of assignment at a fuel. -/
abbrev AssignmentInv (fuel : Nat) : Prop :=
  ∀ ts n ts', Parser.assignment fuel ts = .ok (n, ts') →
    (∀ tok ∈ ts, opLexemeOK tok = true) →
    astWF n = true ∧ noElseNode n = true ∧ ts' ⊆ ts

/-- Invariant contract of statement at a fuel: the tree is well formed,
and it carries no else branch when the input has no ELSE token. -/
abbrev StatementInv (fuel : Nat) : Prop :=
  ∀ ts n ts', Parser.statement fuel ts = .ok (n, ts') →
    (∀ tok ∈ ts, opLexemeOK tok = true) →
    astWF n = true ∧ ((∀ tok ∈ ts, tok.1 ≠ "ELSE") → noElseNode n = true) ∧ ts' ⊆ ts

/-- Invariant contract of if_statement at a fuel. -/
abbrev IfStatementInv (fuel : Nat) : Prop :=
  ∀ ts n ts', Parser.if_statement fuel ts = .ok (n, ts') →
    (∀ tok ∈ ts, opLexemeOK tok = true) →
    astWF n = true ∧ ((∀ tok ∈ ts, tok.1 ≠ "ELSE") → noElseNode n = true) ∧ ts' ⊆ ts

/-- Invariant contract of block_or_statement at a fuel. -/
abbrev BlockOrStatementInv (fuel : Nat) : Prop :=
  ∀ ts n ts', Parser.block_or_statement fuel ts = .ok (n, ts') →
    (∀ tok ∈ ts, opLexemeOK tok = true) →
    astWF n = true ∧ ((∀ tok ∈ ts, tok.1 ≠ "ELSE") → noElseNode n = true) ∧ ts' ⊆ ts

/-- Invariant contract of the block statement loop at a fuel. -/
abbrev BlockItemsInv (fuel : Nat) : Prop :=
  ∀ acc ts ns ts', Parser.blockItems fuel acc ts = .ok (ns, ts') →
    (∀ tok ∈ ts, opLexemeOK tok = true) →
    (astWFList acc = true → astWFList ns = true) ∧
    ((∀ tok ∈ ts, tok.1 ≠ "ELSE") → noElseList acc = true → noElseList ns = true) ∧
    ts' ⊆ ts

/-- Invariant contract of the top-level statement loop at a fuel. -/
abbrev ProgramItemsInv (fuel : Nat) : Prop :=
  ∀ acc ts n ts', Parser.programItems fuel acc ts = .ok (n, ts') →
    (∀ tok ∈ ts, opLexemeOK tok = true) →
    (astWFList acc = true → astWF n = true) ∧
    ((∀ tok ∈ ts, tok.1 ≠ "ELSE") → noElseList acc = true → noElseNode n = true) ∧
    ts' ⊆ ts

/-! Lemmas. -/

/-- Unfolding lemma for the lexer about one decision step. -/
theorem lexAux_cons (p : Bool) (c : Char) (cs : List Char) :
    lexAux p (c :: cs) =
      match (lexDecide p c cs).1 with
      | some t => t :: lexAux (lexDecide p c cs).2.1 (lexDecide p c cs).2.2
      | none => lexAux (lexDecide p c cs).2.1 (lexDecide p c cs).2.2 := by
  rw [lexAux.eq_def]

/-- The lexer on the empty input. -/
theorem lexAux_nil (p : Bool) : lexAux p [] = [] := by
  rw [lexAux.eq_def]

/-- The fueled lexer clone agrees with the lexer whenever the fuel covers
the input length. -/
theorem lexAux_eq_lexF : ∀ (n : Nat) (p : Bool) (l : List Char),
    l.length ≤ n → lexAux p l = lexF n p l := by
  intro n
  induction n with
  | zero =>
    intro p l h
    have hl : l = [] := List.eq_nil_of_length_eq_zero (by omega)
    subst hl
    rw [lexAux_nil]
    rfl
  | succ n ih =>
    intro p l h
    match l with
    | [] => rw [lexAux_nil]; rfl
    | c :: cs =>
      have hlen : cs.length ≤ n := by simp only [List.length_cons] at h; omega
      have hrest : (lexDecide p c cs).2.2.length ≤ n :=
        le_trans (lexDecide_rest_le p c cs) hlen
      rw [lexAux_cons]
      show _ = lexF (n + 1) p (c :: cs)
      simp only [lexF]
      cases (lexDecide p c cs).1 with
      | some t => exact congrArg _ (ih _ _ hrest)
      | none => exact ih _ _ hrest

/-- Kernel-computable form of the lexer. -/
theorem lex_eval (s : String) : lex s = lexF s.data.length false s.data :=
  lexAux_eq_lexF s.data.length false s.data (Nat.le_refl _)

/-- The pipeline agrees with its kernel-computable clone. -/
theorem compile_eq_compileF (s : String) : compile s = compileF s := by
  unfold compile compileF
  rw [lex_eval]

/-! Decimal digit lemmas. -/

/-- The fueled digit function ignores the fuel once it covers the value. -/
theorem natDigitsF_congr : ∀ (f g n : Nat), n < f → n < g → natDigitsF f n = natDigitsF g n := by
  intro f
  induction f with
  | zero => intro g n hf; omega
  | succ f ih =>
    intro g n hf hg
    cases g with
    | zero => omega
    | succ g =>
      simp only [natDigitsF]
      by_cases h : n < 10
      · simp [h]
      · have hdiv : n / 10 < n := Nat.div_lt_self (by omega) (by omega)
        rw [if_neg h, if_neg h, ih g (n / 10) (by omega) (by omega)]

/-- The recurrence satisfied by natDigits. -/
theorem natDigits_unfold (n : Nat) :
    natDigits n = if n < 10 then [digitChar n]
      else natDigits (n / 10) ++ [digitChar (n % 10)] := by
  show natDigitsF (n + 1) n = _
  by_cases h : n < 10
  · simp [natDigitsF, h]
  · have hdiv : n / 10 < n := Nat.div_lt_self (by omega) (by omega)
    simp only [natDigitsF, if_neg h]
    rw [natDigitsF_congr n (n / 10 + 1) (n / 10) (by omega) (by omega)]
    rfl

/-- The code of a digit character recovers the digit. -/
theorem digitChar_toNat (d : Nat) (h : d < 10) : (digitChar d).toNat = 48 + d := by
  interval_cases d <;> rfl

/-- Digit characters satisfy the digit class. -/
theorem isDigitChar_digitChar (d : Nat) (h : d < 10) : isDigitChar (digitChar d) = true := by
  interval_cases d <;> rfl

/-- natDigits never returns the empty list. -/
theorem natDigits_ne_nil (n : Nat) : natDigits n ≠ [] := by
  rw [natDigits_unfold]
  by_cases h : n < 10
  · simp [h]
  · simp [h]

/-- Every character of natDigits is a digit. -/
theorem natDigits_all_digits (n : Nat) : ∀ c ∈ natDigits n, isDigitChar c = true := by
  induction n using Nat.strong_induction_on with
  | _ n ih =>
    rw [natDigits_unfold]
    by_cases h : n < 10
    · simp only [if_pos h, List.mem_singleton]
      intro c hc
      subst hc
      exact isDigitChar_digitChar n h
    · have hdiv : n / 10 < n := Nat.div_lt_self (by omega) (by omega)
      simp only [if_neg h, List.mem_append, List.mem_singleton]
      intro c hc
      rcases hc with hc | hc
      · exact ih (n / 10) hdiv c hc
      · subst hc
        exact isDigitChar_digitChar (n % 10) (Nat.mod_lt _ (by omega))

/-- Python int() inverts Python str() on natural numbers. -/
theorem strToNat_natStr (n : Nat) : strToNat (natStr n) = n := by
  induction n using Nat.strong_induction_on with
  | _ n ih =>
    show (natDigits n).foldl (fun a c => 10 * a + (c.toNat - 48)) 0 = n
    rw [natDigits_unfold]
    by_cases h : n < 10
    · simp only [if_pos h, List.foldl_cons, List.foldl_nil]
      rw [digitChar_toNat n h]
      omega
    · have hdiv : n / 10 < n := Nat.div_lt_self (by omega) (by omega)
      simp only [if_neg h, List.foldl_append, List.foldl_cons, List.foldl_nil]
      have ihd := ih (n / 10) hdiv
      have ihd' : (natDigits (n / 10)).foldl (fun a c => 10 * a + (c.toNat - 48)) 0 = n / 10 := ihd
      rw [ihd', digitChar_toNat (n % 10) (Nat.mod_lt _ (by omega))]
      omega

/-- int() after str() on a natural, at the integer level. -/
theorem strToInt_natStr (n : Nat) : strToInt (natStr n) = Int.ofNat n := by
  unfold strToInt
  rw [strToNat_natStr]

/-- str() of a nonnegative integer is the digit string of its value. -/
theorem intToString_ofNat (n : Nat) : intToString (Int.ofNat n) = natStr n := by
  unfold intToString
  have h : ¬ Int.ofNat n < 0 := not_lt.mpr (Int.ofNat_nonneg n)
  rw [if_neg h]
  rfl

/-! Character class lemmas. -/

/-- Characters with distinct codes are distinct under Bool equality. -/
theorem beq_false_of_toNat_ne {c d : Char} (h : c.toNat ≠ d.toNat) : (c == d) = false := by
  cases hb : c == d
  · rfl
  · exact absurd (congrArg Char.toNat (eq_of_beq hb)) h

/-- Code range of a digit character. -/
theorem digit_toNat {c : Char} (h : isDigitChar c = true) : 48 ≤ c.toNat ∧ c.toNat ≤ 57 := by
  simpa [isDigitChar, Bool.and_eq_true, decide_eq_true_eq] using h

/-- Code range of an identifier start character. -/
theorem identStart_toNat {c : Char} (h : isIdentStart c = true) :
    (65 ≤ c.toNat ∧ c.toNat ≤ 90) ∨ (97 ≤ c.toNat ∧ c.toNat ≤ 122) ∨ c.toNat = 95 := by
  simp only [isIdentStart, isAlphaChar, Bool.or_eq_true, Bool.and_eq_true,
    decide_eq_true_eq] at h
  rcases h with (h | h) | h
  · exact Or.inl h
  · exact Or.inr (Or.inl h)
  · have : c = '_' := eq_of_beq h
    subst this
    exact Or.inr (Or.inr rfl)

/-- Code of a whitespace character. -/
theorem space_toNat {c : Char} (h : isSpaceChar c = true) :
    c.toNat = 32 ∨ c.toNat = 9 ∨ c.toNat = 10 ∨ c.toNat = 13 ∨ c.toNat = 11 ∨ c.toNat = 12 := by
  simp only [isSpaceChar, Bool.or_eq_true] at h
  rcases h with ((((h | h) | h) | h) | h) | h <;>
    (have heq := eq_of_beq h; subst heq; decide)

/-! Symbolic single-step lemmas about the lexing decision. -/

/-- Decision at a digit: the NUMBER pattern wins and takes the maximal
digit run. -/
theorem lexDecide_digit {c : Char} (h : isDigitChar c = true) (p : Bool) (cs : List Char) :
    lexDecide p c cs =
      (some ("NUMBER", ⟨List.takeWhile isDigitChar (c :: cs)⟩), true,
        List.dropWhile isDigitChar cs) := by
  have hd := digit_toNat h
  have hi : (c == 'i') = false := beq_false_of_toNat_ne (show c.toNat ≠ 105 by omega)
  have he : (c == 'e') = false := beq_false_of_toNat_ne (show c.toNat ≠ 101 by omega)
  unfold lexDecide
  rw [if_neg (by simp only [hi, Bool.false_and]; exact Bool.false_ne_true),
    if_neg (by simp only [he, Bool.false_and]; exact Bool.false_ne_true), if_pos h]

/-- Decision at an identifier start character when neither keyword
pattern matches: the IDENTIFIER pattern wins and takes the maximal word
run. -/
theorem lexDecide_identStart {c : Char} {p : Bool} {cs : List Char}
    (h : isIdentStart c = true)
    (hif : (c == 'i' && cs.head? == some 'f' && !p && noWordNext (cs.drop 1)) = false)
    (helse : (c == 'e' && cs.take 3 == ['l', 's', 'e'] && !p && noWordNext (cs.drop 3)) = false) :
    lexDecide p c cs =
      (some ("IDENTIFIER", ⟨List.takeWhile isWordChar (c :: cs)⟩), true,
        List.dropWhile isWordChar cs) := by
  have hr : 65 ≤ c.toNat ∧ c.toNat ≤ 122 := by
    rcases identStart_toNat h with ⟨h1, h2⟩ | ⟨h1, h2⟩ | h1 <;> omega
  have hdig : isDigitChar c = false := by
    cases hb : isDigitChar c
    · rfl
    · have := digit_toNat hb; omega
  have hsp : isSpaceChar c = false := by
    cases hb : isSpaceChar c
    · rfl
    · rcases space_toNat hb with h1 | h1 | h1 | h1 | h1 | h1 <;> omega
  have hplus : (c == '+') = false := beq_false_of_toNat_ne (show c.toNat ≠ 43 by omega)
  have hminus : (c == '-') = false := beq_false_of_toNat_ne (show c.toNat ≠ 45 by omega)
  have hstar : (c == '*') = false := beq_false_of_toNat_ne (show c.toNat ≠ 42 by omega)
  have hslash : (c == '/') = false := beq_false_of_toNat_ne (show c.toNat ≠ 47 by omega)
  have hlp : (c == '(') = false := beq_false_of_toNat_ne (show c.toNat ≠ 40 by omega)
  have hrp : (c == ')') = false := beq_false_of_toNat_ne (show c.toNat ≠ 41 by omega)
  have hlb : (c == '\x7b') = false := beq_false_of_toNat_ne (show c.toNat ≠ 123 by omega)
  have hrb : (c == '\x7d') = false := beq_false_of_toNat_ne (show c.toNat ≠ 125 by omega)
  have hsemi : (c == ';') = false := beq_false_of_toNat_ne (show c.toNat ≠ 59 by omega)
  have heqc : (c == '=') = false := beq_false_of_toNat_ne (show c.toNat ≠ 61 by omega)
  have hbang : (c == '!') = false := beq_false_of_toNat_ne (show c.toNat ≠ 33 by omega)
  have hlt : (c == '<') = false := beq_false_of_toNat_ne (show c.toNat ≠ 60 by omega)
  have hgt : (c == '>') = false := beq_false_of_toNat_ne (show c.toNat ≠ 62 by omega)
  unfold lexDecide
  rw [if_neg (by simp only [hif]; exact Bool.false_ne_true),
    if_neg (by simp only [helse]; exact Bool.false_ne_true),
    if_neg (by simp only [hdig]; exact Bool.false_ne_true),
    if_neg (by simp only [hplus]; exact Bool.false_ne_true),
    if_neg (by simp only [hminus]; exact Bool.false_ne_true),
    if_neg (by simp only [hstar]; exact Bool.false_ne_true),
    if_neg (by simp only [hslash]; exact Bool.false_ne_true),
    if_neg (by simp only [hlp]; exact Bool.false_ne_true),
    if_neg (by simp only [hrp]; exact Bool.false_ne_true),
    if_neg (by simp only [hlb]; exact Bool.false_ne_true),
    if_neg (by simp only [hrb]; exact Bool.false_ne_true),
    if_neg (by simp only [hsemi]; exact Bool.false_ne_true),
    if_neg (by simp only [heqc, Bool.false_and]; exact Bool.false_ne_true),
    if_neg (by simp only [hbang, Bool.false_and]; exact Bool.false_ne_true),
    if_neg (by simp only [hlt]; exact Bool.false_ne_true),
    if_neg (by simp only [hgt]; exact Bool.false_ne_true),
    if_neg (by simp only [hlt, Bool.false_and]; exact Bool.false_ne_true),
    if_neg (by simp only [hgt, Bool.false_and]; exact Bool.false_ne_true),
    if_neg (by simp only [heqc]; exact Bool.false_ne_true),
    if_pos h]

/-- Decision at a position where no pattern matches: the character is
skipped, no token is produced, and the previous-word flag clears, since
such a character is never a word character. -/
theorem lexDecide_noPattern {p : Bool} {c : Char} {cs : List Char}
    (h : noPatternAt p c cs = true) :
    lexDecide p c cs = (none, false, cs) := by
  simp only [noPatternAt, Bool.and_eq_true, Bool.not_eq_true', and_assoc] at h
  obtain ⟨h1, h2, h3, h4, h5, h6, h7, h8, h9, h10, h11, h12, h13, h14, h15, h16, h17, h18⟩ := h
  have hw : isWordChar c = false := by
    have h17' : (isAlphaChar c || c == '_') = false := h17
    rcases Bool.or_eq_false_iff.mp h17' with ⟨ha, hu⟩
    simp [isWordChar, ha, hu, h3]
  unfold lexDecide
  rw [if_neg (by simp only [h1]; exact Bool.false_ne_true),
    if_neg (by simp only [h2]; exact Bool.false_ne_true),
    if_neg (by simp only [h3]; exact Bool.false_ne_true),
    if_neg (by simp only [h4]; exact Bool.false_ne_true),
    if_neg (by simp only [h5]; exact Bool.false_ne_true),
    if_neg (by simp only [h6]; exact Bool.false_ne_true),
    if_neg (by simp only [h7]; exact Bool.false_ne_true),
    if_neg (by simp only [h8]; exact Bool.false_ne_true),
    if_neg (by simp only [h9]; exact Bool.false_ne_true),
    if_neg (by simp only [h10]; exact Bool.false_ne_true),
    if_neg (by simp only [h11]; exact Bool.false_ne_true),
    if_neg (by simp only [h12]; exact Bool.false_ne_true),
    if_neg (by simp only [h13, Bool.false_and]; exact Bool.false_ne_true),
    if_neg (by simp only [h14]; exact Bool.false_ne_true),
    if_neg (by simp only [h15]; exact Bool.false_ne_true),
    if_neg (by simp only [h16]; exact Bool.false_ne_true),
    if_neg (by simp only [h15, Bool.false_and]; exact Bool.false_ne_true),
    if_neg (by simp only [h16, Bool.false_and]; exact Bool.false_ne_true),
    if_neg (by simp only [h13]; exact Bool.false_ne_true),
    if_neg (by simp only [h17]; exact Bool.false_ne_true),
    if_neg (by simp only [h18]; exact Bool.false_ne_true), hw]

/-! List scanning helpers. -/

/-- takeWhile over an all-satisfying prefix. -/
theorem takeWhile_append_all {α : Type} (P : α → Bool) {xs : List α} (ys : List α)
    (h : ∀ x ∈ xs, P x = true) :
    List.takeWhile P (xs ++ ys) = xs ++ List.takeWhile P ys := by
  induction xs with
  | nil => simp
  | cons x xs ih =>
    have hx := h x (List.mem_cons_self x xs)
    simp only [List.cons_append, List.takeWhile_cons, hx, if_true]
    rw [ih (fun a ha => h a (List.mem_cons_of_mem x ha))]

/-- dropWhile over an all-satisfying prefix. -/
theorem dropWhile_append_all {α : Type} (P : α → Bool) {xs : List α} (ys : List α)
    (h : ∀ x ∈ xs, P x = true) :
    List.dropWhile P (xs ++ ys) = List.dropWhile P ys := by
  induction xs with
  | nil => simp
  | cons x xs ih =>
    have hx := h x (List.mem_cons_self x xs)
    simp only [List.cons_append, List.dropWhile_cons, hx, if_true]
    exact ih (fun a ha => h a (List.mem_cons_of_mem x ha))

/-- takeWhile stops immediately when the head fails the test. -/
theorem takeWhile_eq_nil_head {α : Type} (P : α → Bool) (ys : List α)
    (h : ∀ c, ys.head? = some c → P c = false) : List.takeWhile P ys = [] := by
  cases ys with
  | nil => rfl
  | cons y ys => simp [List.takeWhile_cons, h y rfl]

/-- dropWhile drops nothing when the head fails the test. -/
theorem dropWhile_eq_self_head {α : Type} (P : α → Bool) (ys : List α)
    (h : ∀ c, ys.head? = some c → P c = false) : List.dropWhile P ys = ys := by
  cases ys with
  | nil => rfl
  | cons y ys => simp [List.dropWhile_cons, h y rfl]

/-! Concrete one-character lexing decisions, by computation. -/

/-- Decision at a plus sign. -/
theorem lexDecide_plus (p : Bool) (cs : List Char) :
    lexDecide p '+' cs = (some ("PLUS", "+"), false, cs) := rfl

/-- Decision at a star. -/
theorem lexDecide_star (p : Bool) (cs : List Char) :
    lexDecide p '*' cs = (some ("MULTIPLY", "*"), false, cs) := rfl

/-- Decision at a minus sign. -/
theorem lexDecide_minus (p : Bool) (cs : List Char) :
    lexDecide p '-' cs = (some ("MINUS", "-"), false, cs) := rfl

/-- Decision at a slash. -/
theorem lexDecide_slash (p : Bool) (cs : List Char) :
    lexDecide p '/' cs = (some ("DIVIDE", "/"), false, cs) := rfl

/-- Decision at an opening parenthesis. -/
theorem lexDecide_lparen (p : Bool) (cs : List Char) :
    lexDecide p '(' cs = (some ("LPAREN", "("), false, cs) := rfl

/-- Decision at a closing parenthesis. -/
theorem lexDecide_rparen (p : Bool) (cs : List Char) :
    lexDecide p ')' cs = (some ("RPAREN", ")"), false, cs) := rfl

/-- Decision at a semicolon. -/
theorem lexDecide_semicolon (p : Bool) (cs : List Char) :
    lexDecide p ';' cs = (some ("SEMICOLON", ";"), false, cs) := rfl

/-- Decision at a less-than sign: LT wins even when an equals sign
follows, since LT is tried before LE. -/
theorem lexDecide_lt (p : Bool) (cs : List Char) :
    lexDecide p '<' cs = (some ("LT", "<"), false, cs) := rfl

/-- Decision at a greater-than sign: GT wins even when an equals sign
follows. -/
theorem lexDecide_gt (p : Bool) (cs : List Char) :
    lexDecide p '>' cs = (some ("GT", ">"), false, cs) := rfl

/-- Decision at a double equals sign. -/
theorem lexDecide_eqeq (p : Bool) (cs : List Char) :
    lexDecide p '=' ('=' :: cs) = (some ("EQ", "=="), false, cs) := rfl

/-- Decision at an exclamation mark followed by an equals sign. -/
theorem lexDecide_neq (p : Bool) (cs : List Char) :
    lexDecide p '!' ('=' :: cs) = (some ("NEQ", "!="), false, cs) := rfl

/-- Decision at a blank: the whitespace run is matched and dropped. -/
theorem lexDecide_blank (p : Bool) (cs : List Char) :
    lexDecide p ' ' cs = (none, false, List.dropWhile isSpaceChar cs) := rfl

/-! Step lemmas for the lexer loop. -/

/-- A decision that produced a token prepends it. -/
theorem lexAux_step_some {p : Bool} {c : Char} {cs : List Char} {t : Token}
    {pn : Bool} {rest : List Char} (h : lexDecide p c cs = (some t, pn, rest)) :
    lexAux p (c :: cs) = t :: lexAux pn rest := by
  rw [lexAux_cons, h]

/-- A decision that produced no token just moves on. -/
theorem lexAux_step_none {p : Bool} {c : Char} {cs : List Char}
    {pn : Bool} {rest : List Char} (h : lexDecide p c cs = (none, pn, rest)) :
    lexAux p (c :: cs) = lexAux pn rest := by
  rw [lexAux_cons, h]

/-- A maximal digit run lexes to one NUMBER token carrying exactly the
run. -/
theorem lexAux_digit_run {ds : List Char} (hne : ds ≠ [])
    (hall : ∀ x ∈ ds, isDigitChar x = true) {cs : List Char}
    (hhd : ∀ c, cs.head? = some c → isDigitChar c = false) (p : Bool) :
    lexAux p (ds ++ cs) = ("NUMBER", ⟨ds⟩) :: lexAux true cs := by
  cases ds with
  | nil => exact absurd rfl hne
  | cons d ds =>
    have hd : isDigitChar d = true := hall d (List.mem_cons_self d ds)
    have hstep := lexDecide_digit hd p (ds ++ cs)
    have ht : List.takeWhile isDigitChar (d :: (ds ++ cs)) = d :: ds := by
      have he : d :: (ds ++ cs) = (d :: ds) ++ cs := by simp
      rw [he, takeWhile_append_all _ _ hall, takeWhile_eq_nil_head _ _ hhd, List.append_nil]
    have hdrop : List.dropWhile isDigitChar (ds ++ cs) = cs := by
      rw [dropWhile_append_all _ _ (fun a ha => hall a (List.mem_cons_of_mem d ha))]
      exact dropWhile_eq_self_head _ _ hhd
    rw [ht, hdrop] at hstep
    rw [List.cons_append]
    exact lexAux_step_some hstep

/-- One blank before a non-blank character is dropped and clears the
previous-word flag. -/
theorem lexAux_one_space {cs : List Char}
    (hhd : ∀ c, cs.head? = some c → isSpaceChar c = false) (p : Bool) :
    lexAux p (' ' :: cs) = lexAux false cs := by
  have hstep : lexDecide p ' ' cs = (none, false, cs) := by
    rw [lexDecide_blank, dropWhile_eq_self_head _ _ hhd]
  exact lexAux_step_none hstep

/-! Identifier runs. -/

/-- The IF pattern cannot fire at the start of a word run that is not
exactly the word "if" followed by a non-word character. -/
theorem ifGuard_false {w : Char} {ws cs : List Char} (p : Bool)
    (hall : ∀ x ∈ w :: ws, isWordChar x = true)
    (hnotif : w :: ws ≠ ['i', 'f'])
    (hhd : ∀ c, cs.head? = some c → isWordChar c = false) :
    (w == 'i' && (ws ++ cs).head? == some 'f' && !p &&
      noWordNext ((ws ++ cs).drop 1)) = false := by
  by_cases hw : w = 'i'
  · subst hw
    cases ws with
    | nil =>
      have hf : cs.head? ≠ some 'f' := by
        cases cs with
        | nil => simp
        | cons c0 cs0 =>
          simp only [List.head?_cons, ne_eq, Option.some.injEq]
          intro hx
          have h0 := hhd c0 rfl
          rw [hx] at h0
          exact absurd h0 (by decide)
      simp [hf]
    | cons w2 ws2 =>
      by_cases hw2 : w2 = 'f'
      · subst hw2
        cases ws2 with
        | nil => exact absurd rfl hnotif
        | cons w3 ws3 =>
          have h3 : isWordChar w3 = true := hall w3 (by simp)
          simp [noWordNext, h3]
      · simp [hw2]
  · simp [hw]

/-- The ELSE pattern cannot fire at the start of a word run that is not
exactly the word "else" followed by a non-word character. -/
theorem elseGuard_false {w : Char} {ws cs : List Char} (p : Bool)
    (hall : ∀ x ∈ w :: ws, isWordChar x = true)
    (hnotelse : w :: ws ≠ ['e', 'l', 's', 'e'])
    (hhd : ∀ c, cs.head? = some c → isWordChar c = false) :
    (w == 'e' && (ws ++ cs).take 3 == ['l', 's', 'e'] && !p &&
      noWordNext ((ws ++ cs).drop 3)) = false := by
  by_cases hw : w = 'e'
  · subst hw
    cases ws with
    | nil =>
      have ht : List.take 3 cs ≠ ['l', 's', 'e'] := by
        cases cs with
        | nil => simp
        | cons c0 cs0 =>
          simp only [List.take_succ_cons, ne_eq, List.cons.injEq, not_and]
          intro hx
          have h0 := hhd c0 rfl
          rw [hx] at h0
          exact absurd h0 (by decide)
      simp [ht]
    | cons w2 ws2 =>
      by_cases hw2 : w2 = 'l'
      · subst hw2
        cases ws2 with
        | nil =>
          have ht : List.take 2 cs ≠ ['s', 'e'] := by
            cases cs with
            | nil => simp
            | cons c0 cs0 =>
              simp only [List.take_succ_cons, ne_eq, List.cons.injEq, not_and]
              intro hx
              have h0 := hhd c0 rfl
              rw [hx] at h0
              exact absurd h0 (by decide)
          simp [ht]
        | cons w3 ws3 =>
          by_cases hw3 : w3 = 's'
          · subst hw3
            cases ws3 with
            | nil =>
              have ht : List.take 1 cs ≠ ['e'] := by
                cases cs with
                | nil => simp
                | cons c0 cs0 =>
                  simp only [List.take_succ_cons, List.take_zero, ne_eq, List.cons.injEq,
                    and_true]
                  intro hx
                  have h0 := hhd c0 rfl
                  rw [hx] at h0
                  exact absurd h0 (by decide)
              simp [ht]
            | cons w4 ws4 =>
              by_cases hw4 : w4 = 'e'
              · subst hw4
                cases ws4 with
                | nil => exact absurd rfl hnotelse
                | cons w5 ws5 =>
                  have h5 : isWordChar w5 = true := hall w5 (by simp)
                  simp [noWordNext, h5]
              · simp [hw4]
          · simp [hw3]
      · simp [hw2]
  · simp [hw]

/-- A maximal word run that is not a keyword lexes to one IDENTIFIER
token carrying exactly the run. -/
theorem lexAux_ident_run {w : Char} {ws : List Char} (hstart : isIdentStart w = true)
    (hall : ∀ x ∈ w :: ws, isWordChar x = true)
    (hnotif : w :: ws ≠ ['i', 'f'])
    (hnotelse : w :: ws ≠ ['e', 'l', 's', 'e'])
    {cs : List Char} (hhd : ∀ c, cs.head? = some c → isWordChar c = false) (p : Bool) :
    lexAux p ((w :: ws) ++ cs) = ("IDENTIFIER", ⟨w :: ws⟩) :: lexAux true cs := by
  have hif := @ifGuard_false w ws cs p hall hnotif hhd
  have helse := @elseGuard_false w ws cs p hall hnotelse hhd
  have hstep := @lexDecide_identStart w p (ws ++ cs) hstart hif helse
  have ht : List.takeWhile isWordChar (w :: (ws ++ cs)) = w :: ws := by
    have he : w :: (ws ++ cs) = (w :: ws) ++ cs := by simp
    rw [he, takeWhile_append_all _ _ hall, takeWhile_eq_nil_head _ _ hhd, List.append_nil]
  have hdrop : List.dropWhile isWordChar (ws ++ cs) = cs := by
    rw [dropWhile_append_all _ _ (fun a ha => hall a (List.mem_cons_of_mem w ha))]
    exact dropWhile_eq_self_head _ _ hhd
  rw [ht, hdrop] at hstep
  rw [List.cons_append]
  exact lexAux_step_some hstep

/-- An identifier start character is a word character. -/
theorem wordChar_of_identStart {c : Char} (h : isIdentStart c = true) :
    isWordChar c = true := by
  have h' : isAlphaChar c = true ∨ (c == '_') = true := by
    simpa [isIdentStart] using h
  rcases h' with ha | hu
  · simp [isWordChar, ha]
  · simp [isWordChar, hu]

/-- A digit is not whitespace. -/
theorem not_space_of_digit {c : Char} (h : isDigitChar c = true) : isSpaceChar c = false := by
  cases hb : isSpaceChar c
  · rfl
  · have h1 := digit_toNat h
    rcases space_toNat hb with h2 | h2 | h2 | h2 | h2 | h2 <;> omega

/-- The lexer produces at most one token per input character; in
particular it always terminates with a finite token list. -/
theorem lexAux_length_le : ∀ (l : List Char) (p : Bool), (lexAux p l).length ≤ l.length := by
  suffices H : ∀ (n : Nat) (l : List Char) (p : Bool), l.length ≤ n →
      (lexAux p l).length ≤ l.length by
    exact fun l p => H l.length l p (Nat.le_refl _)
  intro n
  induction n with
  | zero =>
    intro l p h
    have hl : l = [] := List.eq_nil_of_length_eq_zero (by omega)
    subst hl
    rw [lexAux_nil]
    exact Nat.le_refl _
  | succ n ih =>
    intro l p h
    cases l with
    | nil =>
      rw [lexAux_nil]
      exact Nat.le_refl _
    | cons c cs =>
      have hcs : cs.length ≤ n := by simp only [List.length_cons] at h; omega
      have hrest := lexDecide_rest_le p c cs
      rw [lexAux_cons]
      rcases hd : lexDecide p c cs with ⟨t?, pn, rest⟩
      rw [hd] at hrest
      have hrest' : rest.length ≤ cs.length := hrest
      simp only [hd]
      cases t? with
      | some t =>
        simp only [List.length_cons]
        have := ih rest pn (le_trans hrest' hcs)
        omega
      | none =>
        have := ih rest pn (le_trans hrest' hcs)
        simp only [List.length_cons]
        omega

/-! Lexing the generator output of a well-formed expression. -/

/-- An identifier start character is not whitespace. -/
theorem not_space_of_identStart {c : Char} (h : isIdentStart c = true) :
    isSpaceChar c = false := by
  cases hb : isSpaceChar c
  · rfl
  · have h1 : 65 ≤ c.toNat ∧ c.toNat ≤ 122 := by
      rcases identStart_toNat h with ⟨a1, a2⟩ | ⟨a1, a2⟩ | a1 <;> omega
    rcases space_toNat hb with h2 | h2 | h2 | h2 | h2 | h2 <;> omega

/-- A valid non-keyword identifier lexes to a single IDENTIFIER token
carrying the whole name. -/
theorem validIdent_run (n : String) (hv : isValidIdent n = true)
    (hif : n ≠ "if") (helse : n ≠ "else")
    {cs : List Char} (hhd : ∀ c, cs.head? = some c → isWordChar c = false) (p : Bool) :
    lexAux p (n.data ++ cs) = ("IDENTIFIER", n) :: lexAux true cs := by
  unfold isValidIdent at hv
  cases hd : n.data with
  | nil => rw [hd] at hv; simp at hv
  | cons w ws =>
    rw [hd] at hv
    have h1' : isIdentStart w = true ∧ ws.all isWordChar = true := by
      simpa [Bool.and_eq_true] using hv
    have hall : ∀ x ∈ w :: ws, isWordChar x = true := by
      intro x hx
      rcases List.mem_cons.mp hx with rfl | hx'
      · exact wordChar_of_identStart h1'.1
      · exact List.all_eq_true.mp h1'.2 x hx'
    have hnotif : w :: ws ≠ ['i', 'f'] := by
      intro he
      apply hif
      have hde : n.data = "if".data := by rw [hd, he]
      exact congrArg String.mk hde
    have hnotelse : w :: ws ≠ ['e', 'l', 's', 'e'] := by
      intro he
      apply helse
      have hde : n.data = "else".data := by rw [hd, he]
      exact congrArg String.mk hde
    rw [lexAux_ident_run h1'.1 hall hnotif hnotelse hhd p]
    have hmk : (⟨w :: ws⟩ : String) = n := by rw [← hd]
    rw [hmk]

/-- The rendering of a well-formed expression never starts with
whitespace. -/
theorem gstr_head_not_space (u : Node) (hu : exprWF u = true) :
    ∀ c, ((gstr u).data).head? = some c → isSpaceChar c = false := by
  cases u with
  | num v =>
    have h0 : (0 : Int) ≤ v := by simpa [exprWF] using hu
    have hg : gstr (.num v) = natStr v.toNat := by
      show intToString v = natStr v.toNat
      unfold intToString
      rw [if_neg (by omega)]
    rw [hg]
    intro c hc
    cases hnb : natDigits v.toNat with
    | nil => exact absurd hnb (natDigits_ne_nil _)
    | cons d db =>
      have hc' : (d :: db).head? = some c := by rw [← hnb]; exact hc
      rw [List.head?_cons] at hc'
      injection hc' with hc''
      subst hc''
      exact not_space_of_digit
        (natDigits_all_digits _ d (by rw [hnb]; exact List.mem_cons_self d db))
  | ident n =>
    intro c hc
    have hc' : n.data.head? = some c := hc
    have hv : isValidIdent n = true := by
      have h1 := hu
      simp only [exprWF, Bool.and_eq_true, and_assoc] at h1
      exact h1.1
    unfold isValidIdent at hv
    cases hd : n.data with
    | nil => rw [hd] at hv; simp at hv
    | cons w ws =>
      rw [hd] at hv
      rw [hd, List.head?_cons] at hc'
      injection hc' with hc''
      subst hc''
      have h1' : isIdentStart w = true := by
        have h2 := hv
        simp only [Bool.and_eq_true] at h2
        exact h2.1
      exact not_space_of_identStart h1'
  | binop l op r =>
    intro c hc
    rw [show ((gstr (.binop l op r)).data).head? = some '(' from rfl] at hc
    injection hc with hc'
    subst hc'
    decide
  | assign t1 t2 => simp [exprWF] at hu
  | ifStmt c1 c2 c3 => simp [exprWF] at hu
  | block ss => simp [exprWF] at hu

/-- The rendering of a well-formed expression lexes back to exactly its
token sequence, leaving the rest of the input to continue with the
previous-word flag determined by how the rendering ends. -/
theorem lex_gstr : ∀ (t : Node), exprWF t = true → ∀ (p : Bool) (cs : List Char),
    sepOK t cs →
    lexAux p ((gstr t).data ++ cs) = exprTokens t ++ lexAux (endsWord t) cs := by
  suffices H : ∀ (n : Nat) (t : Node), exprSize t ≤ n → exprWF t = true →
      ∀ (p : Bool) (cs : List Char), sepOK t cs →
      lexAux p ((gstr t).data ++ cs) = exprTokens t ++ lexAux (endsWord t) cs by
    exact fun t hwf p cs hsep => H (exprSize t) t (Nat.le_refl _) hwf p cs hsep
  intro n
  induction n with
  | zero =>
    intro t hsz
    cases t <;> (simp only [exprSize] at hsz; omega)
  | succ n ih =>
    intro t hsz hwf p cs hsep
    cases t with
    | num v =>
      have h0 : (0 : Int) ≤ v := by simpa [exprWF] using hwf
      have hg : gstr (Node.num v) = natStr v.toNat := by
        show intToString v = natStr v.toNat
        unfold intToString
        rw [if_neg (by omega)]
      rw [hg]
      show lexAux p (natDigits v.toNat ++ cs) = _
      rw [lexAux_digit_run (natDigits_ne_nil _) (natDigits_all_digits _)
        (fun c hc => hsep c hc) p]
      rfl
    | ident nm =>
      have h1 := hwf
      simp only [exprWF, Bool.and_eq_true, and_assoc, Bool.not_eq_true'] at h1
      obtain ⟨hv, hifb, helseb⟩ := h1
      have hrun := validIdent_run nm hv (beq_eq_false_iff_ne.mp hifb)
        (beq_eq_false_iff_ne.mp helseb) (fun c hc => hsep c hc) p
      show lexAux p (nm.data ++ cs) = _
      rw [hrun]
      rfl
    | binop l op r =>
      have hszl : exprSize l ≤ n := by simp only [exprSize] at hsz; omega
      have hszr : exprSize r ≤ n := by simp only [exprSize] at hsz; omega
      have h1 := hwf
      simp only [exprWF, Bool.and_eq_true, and_assoc] at h1
      obtain ⟨hops, hl, hr⟩ := h1
      have hop8 : op = "+" ∨ op = "-" ∨ op = "*" ∨ op = "/" ∨ op = "==" ∨ op = "!=" ∨
          op = "<" ∨ op = ">" := by
        simpa [or_assoc] using hops
      have hopstep : ∀ rest, lexAux false (op.data ++ rest) =
          (opTokenKind op, op) :: lexAux false rest := by
        rcases hop8 with rfl | rfl | rfl | rfl | rfl | rfl | rfl | rfl
        · exact fun rest => lexAux_step_some (lexDecide_plus false rest)
        · exact fun rest => lexAux_step_some (lexDecide_minus false rest)
        · exact fun rest => lexAux_step_some (lexDecide_star false rest)
        · exact fun rest => lexAux_step_some (lexDecide_slash false rest)
        · exact fun rest => lexAux_step_some (lexDecide_eqeq false rest)
        · exact fun rest => lexAux_step_some (lexDecide_neq false rest)
        · exact fun rest => lexAux_step_some (lexDecide_lt false rest)
        · exact fun rest => lexAux_step_some (lexDecide_gt false rest)
      have hopsp : ∀ c, op.data.head? = some c → isSpaceChar c = false := by
        rcases hop8 with rfl | rfl | rfl | rfl | rfl | rfl | rfl | rfl
        · intro c hc
          rw [show ("+" : String).data.head? = some '+' from rfl] at hc
          injection hc with h'; subst h'; decide
        · intro c hc
          rw [show ("-" : String).data.head? = some '-' from rfl] at hc
          injection hc with h'; subst h'; decide
        · intro c hc
          rw [show ("*" : String).data.head? = some '*' from rfl] at hc
          injection hc with h'; subst h'; decide
        · intro c hc
          rw [show ("/" : String).data.head? = some '/' from rfl] at hc
          injection hc with h'; subst h'; decide
        · intro c hc
          rw [show ("==" : String).data.head? = some '=' from rfl] at hc
          injection hc with h'; subst h'; decide
        · intro c hc
          rw [show ("!=" : String).data.head? = some '!' from rfl] at hc
          injection hc with h'; subst h'; decide
        · intro c hc
          rw [show ("<" : String).data.head? = some '<' from rfl] at hc
          injection hc with h'; subst h'; decide
        · intro c hc
          rw [show (">" : String).data.head? = some '>' from rfl] at hc
          injection hc with h'; subst h'; decide
      have hopne : op.data ≠ [] := by
        rcases hop8 with rfl | rfl | rfl | rfl | rfl | rfl | rfl | rfl <;> decide
      have hsepl : sepOK l (' ' :: (op.data ++ (' ' :: ((gstr r).data ++ (')' :: cs))))) := by
        intro c hc
        rw [List.head?_cons] at hc
        injection hc with h'
        subst h'
        cases l <;> first | trivial | decide
      have hsepr : sepOK r (')' :: cs) := by
        intro c hc
        rw [List.head?_cons] at hc
        injection hc with h'
        subst h'
        cases r <;> first | trivial | decide
      have hsp2 : ∀ c, (op.data ++ (' ' :: ((gstr r).data ++ (')' :: cs)))).head? = some c →
          isSpaceChar c = false := by
        cases hod : op.data with
        | nil => exact absurd hod hopne
        | cons o os =>
          intro c hc
          rw [List.cons_append, List.head?_cons] at hc
          injection hc with h'
          subst h'
          exact hopsp o (by rw [hod, List.head?_cons])
      have hsp3 : ∀ c, ((gstr r).data ++ (')' :: cs)).head? = some c →
          isSpaceChar c = false := by
        cases hgr : (gstr r).data with
        | nil =>
          intro c hc
          rw [List.nil_append, List.head?_cons] at hc
          injection hc with h'
          subst h'
          decide
        | cons g gs =>
          intro c hc
          rw [List.cons_append, List.head?_cons] at hc
          injection hc with h'
          subst h'
          exact gstr_head_not_space r hr g (by rw [hgr, List.head?_cons])
      have hd2 : (gstr (Node.binop l op r)).data ++ cs
          = '(' :: ((gstr l).data ++ (' ' :: (op.data ++
              (' ' :: ((gstr r).data ++ (')' :: cs)))))) := by
        have h0 : (gstr (Node.binop l op r)).data
            = ['('] ++ (gstr l).data ++ [' '] ++ op.data ++ [' '] ++ (gstr r).data ++ [')'] :=
          rfl
        rw [h0]
        simp [List.append_assoc]
      rw [hd2, lexAux_step_some (lexDecide_lparen p _),
        ih l hszl hl false _ hsepl,
        lexAux_one_space hsp2,
        hopstep (' ' :: ((gstr r).data ++ (')' :: cs))),
        lexAux_one_space hsp3,
        ih r hszr hr false _ hsepr,
        lexAux_step_some (lexDecide_rparen (endsWord r) cs)]
      simp [exprTokens, endsWord, List.append_assoc]
    | assign t1 t2 => simp [exprWF] at hwf
    | ifStmt c1 c2 c3 => simp [exprWF] at hwf
    | block ss => simp [exprWF] at hwf

/-! Parsing the token sequence of a well-formed expression. -/

/-- Bind on a successful Except value. -/
theorem exbind_ok {α β : Type} (a : α) (f : α → Except String β) :
    (Except.ok a >>= f : Except String β) = f a := rfl

/-- The multiplicative loop stops when the current token is not a
multiplicative operator. -/
theorem termOps_exit (acc : Node) (ts : List Token)
    (h : ∀ k v r, ts = (k, v) :: r → (k == "MULTIPLY" || k == "DIVIDE") = false) :
    ∀ fuel, 1 ≤ fuel → Parser.termOps fuel acc ts = .ok (acc, ts) := by
  intro fuel hf
  cases fuel with
  | zero => omega
  | succ f =>
    cases ts with
    | nil => rfl
    | cons tok rest =>
      rcases tok with ⟨k, v⟩
      have hk := h k v rest rfl
      simp [Parser.termOps, hk]

/-- The additive and comparison loop stops when the current token is not
one of its operators. -/
theorem exprOps_exit (acc : Node) (ts : List Token)
    (h : ∀ k v r, ts = (k, v) :: r →
      (k == "PLUS" || k == "MINUS" || k == "EQ" || k == "NEQ" ||
       k == "LT" || k == "GT" || k == "LE" || k == "GE") = false) :
    ∀ fuel, 1 ≤ fuel → Parser.exprOps fuel acc ts = .ok (acc, ts) := by
  intro fuel hf
  cases fuel with
  | zero => omega
  | succ f =>
    cases ts with
    | nil => rfl
    | cons tok rest =>
      rcases tok with ⟨k, v⟩
      have hk := h k v rest rfl
      simp [Parser.exprOps, hk]

/-- One consuming step of the additive and comparison loop. -/
theorem exprOps_step (acc : Node) (k v : String) (ts : List Token) (fuel : Nat)
    (hk : (k == "PLUS" || k == "MINUS" || k == "EQ" || k == "NEQ" ||
      k == "LT" || k == "GT" || k == "LE" || k == "GE") = true) :
    Parser.exprOps (fuel + 1) acc ((k, v) :: ts) =
      (Parser.term fuel ts >>= fun x =>
        match x with
        | (rhs, ts1) => Parser.exprOps fuel (.binop acc v rhs) ts1) := by
  simp [Parser.exprOps, hk]

/-- Parsing an expression made of two fully parenthesized operands joined
by a multiplicative operator token. -/
theorem expr_flat_mul (l r : Node) (K op : String) (rest : List Token)
    (hFl : ∀ (rest' : List Token) (fuel : Nat), 3 * (exprTokens l).length + 1 ≤ fuel →
        Parser.factor fuel (exprTokens l ++ rest') = .ok (l, rest'))
    (hFr : ∀ (rest' : List Token) (fuel : Nat), 3 * (exprTokens r).length + 1 ≤ fuel →
        Parser.factor fuel (exprTokens r ++ rest') = .ok (r, rest'))
    (hmul : (K == "MULTIPLY" || K == "DIVIDE") = true)
    (hrm : ∀ k v r', rest = (k, v) :: r' → (k == "MULTIPLY" || k == "DIVIDE") = false)
    (hra : ∀ k v r', rest = (k, v) :: r' →
        (k == "PLUS" || k == "MINUS" || k == "EQ" || k == "NEQ" ||
         k == "LT" || k == "GT" || k == "LE" || k == "GE") = false) :
    ∀ fuel, 3 * (exprTokens l).length + 3 * (exprTokens r).length + 4 ≤ fuel →
      Parser.expr fuel (exprTokens l ++ ((K, op) :: (exprTokens r ++ rest))) =
        .ok (.binop l op r, rest) := by
  intro fuel hfuel
  cases fuel with
  | zero => omega
  | succ f1 =>
    cases f1 with
    | zero => omega
    | succ f2 =>
      cases f2 with
      | zero => omega
      | succ f3 =>
        have hfacl := hFl ((K, op) :: (exprTokens r ++ rest)) (f3 + 1) (by omega)
        have hfacr := hFr rest f3 (by omega)
        have hto2 : Parser.termOps f3 (.binop l op r) rest = .ok (.binop l op r, rest) :=
          termOps_exit _ _ hrm f3 (by omega)
        have htops : Parser.termOps (f3 + 1) l ((K, op) :: (exprTokens r ++ rest)) =
            .ok (.binop l op r, rest) := by
          simp [Parser.termOps, hmul, hfacr, exbind_ok]
          exact hto2
        have hterm : Parser.term (f3 + 1 + 1)
            (exprTokens l ++ ((K, op) :: (exprTokens r ++ rest))) =
            .ok (.binop l op r, rest) := by
          simp only [Parser.term, hfacl, exbind_ok]
          exact htops
        have hexo : Parser.exprOps (f3 + 1 + 1) (.binop l op r) rest =
            .ok (.binop l op r, rest) := exprOps_exit _ _ hra _ (by omega)
        simp only [Parser.expr, hterm, exbind_ok]
        exact hexo

/-- Parsing an expression made of two fully parenthesized operands joined
by an additive or comparison operator token. -/
theorem expr_flat_add (l r : Node) (K op : String) (rest : List Token)
    (hFl : ∀ (rest' : List Token) (fuel : Nat), 3 * (exprTokens l).length + 1 ≤ fuel →
        Parser.factor fuel (exprTokens l ++ rest') = .ok (l, rest'))
    (hFr : ∀ (rest' : List Token) (fuel : Nat), 3 * (exprTokens r).length + 1 ≤ fuel →
        Parser.factor fuel (exprTokens r ++ rest') = .ok (r, rest'))
    (hmul : (K == "MULTIPLY" || K == "DIVIDE") = false)
    (hadd : (K == "PLUS" || K == "MINUS" || K == "EQ" || K == "NEQ" ||
        K == "LT" || K == "GT" || K == "LE" || K == "GE") = true)
    (hrm : ∀ k v r', rest = (k, v) :: r' → (k == "MULTIPLY" || k == "DIVIDE") = false)
    (hra : ∀ k v r', rest = (k, v) :: r' →
        (k == "PLUS" || k == "MINUS" || k == "EQ" || k == "NEQ" ||
         k == "LT" || k == "GT" || k == "LE" || k == "GE") = false) :
    ∀ fuel, 3 * (exprTokens l).length + 3 * (exprTokens r).length + 4 ≤ fuel →
      Parser.expr fuel (exprTokens l ++ ((K, op) :: (exprTokens r ++ rest))) =
        .ok (.binop l op r, rest) := by
  intro fuel hfuel
  cases fuel with
  | zero => omega
  | succ f1 =>
    cases f1 with
    | zero => omega
    | succ f2 =>
      cases f2 with
      | zero => omega
      | succ f3 =>
        have hfacl := hFl ((K, op) :: (exprTokens r ++ rest)) (f3 + 1) (by omega)
        have hfacr := hFr rest f3 (by omega)
        have hterm : Parser.term (f3 + 1 + 1)
            (exprTokens l ++ ((K, op) :: (exprTokens r ++ rest))) =
            .ok (l, (K, op) :: (exprTokens r ++ rest)) := by
          simp only [Parser.term, hfacl, exbind_ok]
          exact termOps_exit _ _ (fun k v r' he => by
            injection he with he1 he2
            have hk : K = k := congrArg Prod.fst he1
            subst hk
            exact hmul) (f3 + 1) (by omega)
        have hto2 : Parser.termOps f3 r rest = .ok (r, rest) :=
          termOps_exit _ _ hrm f3 (by omega)
        have hterm2 : Parser.term (f3 + 1) (exprTokens r ++ rest) = .ok (r, rest) := by
          simp only [Parser.term, hfacr, exbind_ok]
          exact hto2
        have hexo2 : Parser.exprOps (f3 + 1) (.binop l op r) rest =
            .ok (.binop l op r, rest) := exprOps_exit _ _ hra _ (by omega)
        have hexo : Parser.exprOps (f3 + 1 + 1) l ((K, op) :: (exprTokens r ++ rest)) =
            .ok (.binop l op r, rest) := by
          rw [exprOps_step l K op (exprTokens r ++ rest) (f3 + 1) hadd, hterm2, exbind_ok]
          exact hexo2
        simp only [Parser.expr, hterm, exbind_ok]
        exact hexo

/-- Factor parses the token sequence of a well-formed expression exactly,
whatever follows, given fuel linear in the token count. -/
theorem parse_factor_wf : ∀ (t : Node), exprWF t = true →
    ∀ (rest : List Token) (fuel : Nat), 3 * (exprTokens t).length + 1 ≤ fuel →
    Parser.factor fuel (exprTokens t ++ rest) = .ok (t, rest) := by
  suffices H : ∀ (n : Nat) (t : Node), exprSize t ≤ n → exprWF t = true →
      ∀ (rest : List Token) (fuel : Nat), 3 * (exprTokens t).length + 1 ≤ fuel →
      Parser.factor fuel (exprTokens t ++ rest) = .ok (t, rest) by
    exact fun t hwf rest fuel hfuel => H (exprSize t) t (Nat.le_refl _) hwf rest fuel hfuel
  intro n
  induction n with
  | zero =>
    intro t hsz
    cases t <;> (simp only [exprSize] at hsz; omega)
  | succ n ih =>
    intro t hsz hwf rest fuel hfuel
    cases t with
    | num v =>
      cases fuel with
      | zero => simp only [exprTokens, List.length_cons, List.length_nil] at hfuel; omega
      | succ f =>
        have h0 : (0 : Int) ≤ v := by simpa [exprWF] using hwf
        show Parser.factor (f + 1) (("NUMBER", natStr v.toNat) :: rest) = .ok (.num v, rest)
        simp [Parser.factor, strToInt_natStr, Int.toNat_of_nonneg h0]
    | ident nm =>
      cases fuel with
      | zero => simp only [exprTokens, List.length_cons, List.length_nil] at hfuel; omega
      | succ f =>
        show Parser.factor (f + 1) (("IDENTIFIER", nm) :: rest) = .ok (.ident nm, rest)
        simp [Parser.factor]
    | binop l op r =>
      have hszl : exprSize l ≤ n := by simp only [exprSize] at hsz; omega
      have hszr : exprSize r ≤ n := by simp only [exprSize] at hsz; omega
      have h1 := hwf
      simp only [exprWF, Bool.and_eq_true, and_assoc] at h1
      obtain ⟨hops, hl, hr⟩ := h1
      have hop8 : op = "+" ∨ op = "-" ∨ op = "*" ∨ op = "/" ∨ op = "==" ∨ op = "!=" ∨
          op = "<" ∨ op = ">" := by
        simpa [or_assoc] using hops
      have hFl := ih l hszl hl
      have hFr := ih r hszr hr
      have hlen : (exprTokens (Node.binop l op r)).length =
          (exprTokens l).length + (exprTokens r).length + 3 := by
        simp [exprTokens]
        omega
      cases fuel with
      | zero => omega
      | succ f =>
        have hshape : exprTokens (Node.binop l op r) ++ rest
            = ("LPAREN", "(") :: (exprTokens l ++ ((opTokenKind op, op) ::
                (exprTokens r ++ (("RPAREN", ")") :: rest)))) := by
          simp [exprTokens, List.append_assoc]
        have hrm : ∀ k v r', (("RPAREN", ")") :: rest) = (k, v) :: r' →
            (k == "MULTIPLY" || k == "DIVIDE") = false := by
          intro k v r' he
          injection he with he1 he2
          have hk : "RPAREN" = k := congrArg Prod.fst he1
          subst hk
          decide
        have hra : ∀ k v r', (("RPAREN", ")") :: rest) = (k, v) :: r' →
            (k == "PLUS" || k == "MINUS" || k == "EQ" || k == "NEQ" ||
             k == "LT" || k == "GT" || k == "LE" || k == "GE") = false := by
          intro k v r' he
          injection he with he1 he2
          have hk : "RPAREN" = k := congrArg Prod.fst he1
          subst hk
          decide
        have hexpr : Parser.expr f (exprTokens l ++ ((opTokenKind op, op) ::
            (exprTokens r ++ (("RPAREN", ")") :: rest)))) =
            .ok (.binop l op r, ("RPAREN", ")") :: rest) := by
          rcases hop8 with rfl | rfl | rfl | rfl | rfl | rfl | rfl | rfl
          · exact expr_flat_add l r _ _ _ hFl hFr (by decide) (by decide) hrm hra f (by omega)
          · exact expr_flat_add l r _ _ _ hFl hFr (by decide) (by decide) hrm hra f (by omega)
          · exact expr_flat_mul l r _ _ _ hFl hFr (by decide) hrm hra f (by omega)
          · exact expr_flat_mul l r _ _ _ hFl hFr (by decide) hrm hra f (by omega)
          · exact expr_flat_add l r _ _ _ hFl hFr (by decide) (by decide) hrm hra f (by omega)
          · exact expr_flat_add l r _ _ _ hFl hFr (by decide) (by decide) hrm hra f (by omega)
          · exact expr_flat_add l r _ _ _ hFl hFr (by decide) (by decide) hrm hra f (by omega)
          · exact expr_flat_add l r _ _ _ hFl hFr (by decide) (by decide) hrm hra f (by omega)
        rw [hshape]
        simp [Parser.factor, hexpr, exbind_ok, Parser.expect]
    | assign t1 t2 => simp [exprWF] at hwf
    | ifStmt c1 c2 c3 => simp [exprWF] at hwf
    | block ss => simp [exprWF] at hwf

/-- Expr parses the token sequence of a well-formed expression followed by
a semicolon token, leaving the semicolon unconsumed. -/
theorem parse_expr_semi (t : Node) (hwf : exprWF t = true) :
    ∀ fuel, 3 * (exprTokens t).length + 3 ≤ fuel →
    Parser.expr fuel (exprTokens t ++ [("SEMICOLON", ";")]) =
      .ok (t, [("SEMICOLON", ";")]) := by
  intro fuel hfuel
  cases fuel with
  | zero => omega
  | succ f1 =>
    cases f1 with
    | zero => omega
    | succ f2 =>
      have hfac := parse_factor_wf t hwf [("SEMICOLON", ";")] f2 (by omega)
      have hsemi_rm : ∀ k v r', ([("SEMICOLON", ";")] : List Token) = (k, v) :: r' →
          (k == "MULTIPLY" || k == "DIVIDE") = false := by
        intro k v r' he
        injection he with he1 he2
        have hk : "SEMICOLON" = k := congrArg Prod.fst he1
        subst hk
        decide
      have hsemi_ra : ∀ k v r', ([("SEMICOLON", ";")] : List Token) = (k, v) :: r' →
          (k == "PLUS" || k == "MINUS" || k == "EQ" || k == "NEQ" ||
           k == "LT" || k == "GT" || k == "LE" || k == "GE") = false := by
        intro k v r' he
        injection he with he1 he2
        have hk : "SEMICOLON" = k := congrArg Prod.fst he1
        subst hk
        decide
      have hterm : Parser.term (f2 + 1) (exprTokens t ++ [("SEMICOLON", ";")]) =
          .ok (t, [("SEMICOLON", ";")]) := by
        simp only [Parser.term, hfac, exbind_ok]
        exact termOps_exit _ _ hsemi_rm f2 (by omega)
      simp only [Parser.expr, hterm, exbind_ok]
      exact exprOps_exit _ _ hsemi_ra (f2 + 1) (by omega)

/-- Statement takes the expression-statement branch when the current
token is neither IF nor an IDENTIFIER followed by ASSIGN. -/
theorem statement_expr_branch (fuel : Nat) (k v : String) (rest : List Token)
    (hif : (k == "IF") = false)
    (hlook : (k == "IDENTIFIER" && rest.head?.map Prod.fst == some "ASSIGN") = false) :
    Parser.statement (fuel + 1) ((k, v) :: rest) =
      (Parser.expr fuel ((k, v) :: rest) >>= fun x =>
        match x with
        | (e, ts1) => Parser.expect "SEMICOLON" ts1 >>= fun ts2 => Except.ok (e, ts2)) := by
  simp [Parser.statement, hif, hlook]

/-- Statement parses a well-formed expression followed by a semicolon
token as one expression statement consuming everything. -/
theorem parse_stmt_semi (t : Node) (hwf : exprWF t = true) :
    ∀ fuel, 3 * (exprTokens t).length + 4 ≤ fuel →
    Parser.statement fuel (exprTokens t ++ [("SEMICOLON", ";")]) = .ok (t, []) := by
  intro fuel hfuel
  cases fuel with
  | zero => omega
  | succ f =>
    have hexpr := parse_expr_semi t hwf f (by omega)
    obtain ⟨k0, v0, ts0, hts, hif, hlook⟩ :
        ∃ k0 v0 ts0, exprTokens t ++ [("SEMICOLON", ";")] = (k0, v0) :: ts0 ∧
          (k0 == "IF") = false ∧
          (k0 == "IDENTIFIER" && ts0.head?.map Prod.fst == some "ASSIGN") = false := by
      cases t with
      | num v =>
        exact ⟨"NUMBER", natStr v.toNat, [("SEMICOLON", ";")], rfl, by decide, by decide⟩
      | ident n =>
        exact ⟨"IDENTIFIER", n, [("SEMICOLON", ";")], rfl, by decide, by decide⟩
      | binop l o r =>
        exact ⟨"LPAREN", "(",
          (exprTokens l ++ (opTokenKind o, o) :: exprTokens r ++ [("RPAREN", ")")]) ++
            [("SEMICOLON", ";")], rfl, by decide, by simp⟩
      | assign a b => simp [exprWF] at hwf
      | ifStmt a b c => simp [exprWF] at hwf
      | block s => simp [exprWF] at hwf
    rw [hts] at hexpr ⊢
    rw [statement_expr_branch f k0 v0 ts0 hif hlook, hexpr, exbind_ok]
    rfl

/-- Two steps of the statement loop of parse: one statement consuming the
whole stream, then the empty-stream exit. -/
theorem programItems_single (m : Nat) (t : Node) (ts : List Token) (tok : Token)
    (ts' : List Token) (hcons : ts = tok :: ts')
    (hstmt : Parser.statement m ts = .ok (t, [])) (hm : 1 ≤ m) :
    Parser.programItems (m + 1) [] ts = .ok (.block [t], []) := by
  subst hcons
  cases m with
  | zero => omega
  | succ n =>
    simp [Parser.programItems, hstmt, exbind_ok]

/-- Parse turns the token sequence of a well-formed expression followed
by a semicolon into a one-statement block holding exactly that tree. -/
theorem parse_program_semi (t : Node) (hwf : exprWF t = true) :
    Parser.parse (exprTokens t ++ [("SEMICOLON", ";")]) = .ok (.block [t]) := by
  obtain ⟨tok, ts', hcons⟩ :
      ∃ tok ts', exprTokens t ++ [("SEMICOLON", ";")] = tok :: ts' := by
    cases t <;> exact ⟨_, _, rfl⟩
  have hm : 3 * (exprTokens t).length + 4 ≤
      8 * (exprTokens t ++ [("SEMICOLON", ";")]).length + 7 := by
    rw [List.length_append]
    omega
  unfold Parser.parse
  rw [show 8 * (exprTokens t ++ [("SEMICOLON", ";")]).length + 8 =
      (8 * (exprTokens t ++ [("SEMICOLON", ";")]).length + 7) + 1 from by omega]
  rw [programItems_single _ t _ tok ts' hcons (parse_stmt_semi t hwf _ hm) (by omega)]
  rfl

/-- generate_code agrees with its total mirror gstr on well-formed
expression trees. -/
theorem generate_gstr : ∀ (t : Node), exprWF t = true →
    generate_code t = some (gstr t) := by
  suffices H : ∀ (n : Nat) (t : Node), exprSize t ≤ n → exprWF t = true →
      generate_code t = some (gstr t) by
    exact fun t hwf => H (exprSize t) t (Nat.le_refl _) hwf
  intro n
  induction n with
  | zero =>
    intro t hsz
    cases t <;> simp [exprSize] at hsz
  | succ m ih =>
    intro t hsz hwf
    cases t with
    | num v => rfl
    | ident nm => rfl
    | binop l op r =>
      simp only [exprWF, Bool.and_eq_true] at hwf
      obtain ⟨⟨hops, hwfl⟩, hwfr⟩ := hwf
      have hszlr : exprSize l + exprSize r + 1 ≤ m + 1 := hsz
      have hgl := ih l (by omega) hwfl
      have hgr := ih r (by omega) hwfr
      simp [generate_code, hgl, hgr, gstr]
    | assign a b => simp [exprWF] at hwf
    | ifStmt a b c => simp [exprWF] at hwf
    | block s => simp [exprWF] at hwf

/-- Generating a one-statement block yields the statement rendering: the
newline join of a single rendering is itself. -/
theorem generate_block_single (t : Node) (hwf : exprWF t = true) :
    generate_code (.block [t]) = some (gstr t) := by
  have hg := generate_gstr t hwf
  have h1 : generateList [t] = some [gstr t] := by
    simp [generateList, hg]
  have h2 : generate_code (.block [t]) =
      (generateList [t]).bind (fun ss => some (String.intercalate "\n" ss)) := rfl
  rw [h2, h1]
  rfl

/-- Helper for peeling one alternation layer in token-shape facts. -/
theorem ite_tok_ok {cond : Prop} [Decidable cond]
    {x y : Option Token × Bool × List Char}
    (hx : ∀ t, x.1 = some t → opLexemeOK t = true)
    (hy : ∀ t, y.1 = some t → opLexemeOK t = true) :
    ∀ t, (if cond then x else y).1 = some t → opLexemeOK t = true := by
  split
  · exact hx
  · exact hy

set_option maxHeartbeats 1000000 in
/-- Every token a lexing decision can produce has a lexeme consistent
with its kind on the operator kinds. -/
theorem lexDecide_tok_ok (p : Bool) (c : Char) (cs : List Char) :
    ∀ t, (lexDecide p c cs).1 = some t → opLexemeOK t = true := by
  unfold lexDecide
  repeat' apply ite_tok_ok
  all_goals intro t ht
  all_goals first
    | (injection ht with ht1
       subst ht1
       rfl)
    | injection ht

/-- Every token the fueled lexer produces has a lexeme consistent with
its kind on the operator kinds. -/
theorem lexF_tok_ok : ∀ (n : Nat) (p : Bool) (l : List Char),
    ∀ tok ∈ lexF n p l, opLexemeOK tok = true := by
  intro n
  induction n with
  | zero => intro p l tok htok; simp [lexF] at htok
  | succ m ih =>
    intro p l tok htok
    match l with
    | [] => simp [lexF] at htok
    | c :: cs =>
      simp only [lexF] at htok
      cases hd : (lexDecide p c cs).1 with
      | none =>
        rw [hd] at htok
        exact ih _ _ tok htok
      | some t =>
        rw [hd] at htok
        rcases List.mem_cons.mp htok with h1 | h2
        · rw [h1]
          exact lexDecide_tok_ok p c cs t hd
        · exact ih _ _ tok h2

/-- Every token the lexer produces has a lexeme consistent with its kind
on the operator kinds. -/
theorem lex_tok_ok (s : String) : ∀ tok ∈ lex s, opLexemeOK tok = true := by
  rw [lex_eval]
  exact lexF_tok_ok _ _ _

/-- Decomposition of a successful Except bind. -/
theorem exbind_eq_ok {α β : Type} {m : Except String α} {f : α → Except String β} {b : β}
    (h : (m >>= f) = .ok b) : ∃ a, m = .ok a ∧ f a = .ok b := by
  cases m with
  | error e => exact nomatch h
  | ok a => exact ⟨a, rfl, h⟩

/-- A successful expect returns the rest of its input. -/
theorem expect_sub {k : String} {ts ts' : List Token}
    (h : Parser.expect k ts = .ok ts') : ts' ⊆ ts := by
  cases ts with
  | nil => exact nomatch h
  | cons t rest =>
    obtain ⟨k0, v0⟩ := t
    simp only [Parser.expect] at h
    split at h
    · injection h with h1
      subst h1
      exact List.subset_cons_self _ _
    · exact nomatch h

/-- A multiplicative-kind token with a kind-consistent lexeme carries an
operator of the fixed set. -/
theorem opInSet_of_mul {k v : String} (hok : opLexemeOK (k, v) = true)
    (hk : (k == "MULTIPLY" || k == "DIVIDE") = true) : opInSet v = true := by
  rcases (show k = "MULTIPLY" ∨ k = "DIVIDE" by simpa [or_assoc] using hk) with rfl | rfl <;>
    (simp [opLexemeOK] at hok; subst hok; decide)

/-- An additive- or comparison-kind token with a kind-consistent lexeme
carries an operator of the fixed set. -/
theorem opInSet_of_add {k v : String} (hok : opLexemeOK (k, v) = true)
    (hk : (k == "PLUS" || k == "MINUS" || k == "EQ" || k == "NEQ" ||
      k == "LT" || k == "GT" || k == "LE" || k == "GE") = true) : opInSet v = true := by
  rcases (show k = "PLUS" ∨ k = "MINUS" ∨ k = "EQ" ∨ k = "NEQ" ∨
      k = "LT" ∨ k = "GT" ∨ k = "LE" ∨ k = "GE" by simpa [or_assoc] using hk) with
    rfl | rfl | rfl | rfl | rfl | rfl | rfl | rfl <;>
    (simp [opLexemeOK] at hok; subst hok; decide)

/-- astWFList over a one-element extension on the right. -/
theorem astWFList_append (l : List Node) (s : Node) :
    astWFList (l ++ [s]) = (astWFList l && astWF s) := by
  induction l with
  | nil => simp [astWFList]
  | cons a t ih => simp [astWFList, ih, Bool.and_assoc]

/-- noElseList over a one-element extension on the right. -/
theorem noElseList_append (l : List Node) (s : Node) :
    noElseList (l ++ [s]) = (noElseList l && noElseNode s) := by
  induction l with
  | nil => simp [noElseList]
  | cons a t ih => simp [noElseList, ih, Bool.and_assoc]

set_option maxHeartbeats 2000000 in
/-- The parser invariant, proved for every fuel across all eleven parsing
functions at once: on kind-consistent tokens, successful parses build
well-formed trees, build no else branch without an ELSE token, and leave
a subset of the input tokens. -/
theorem parser_inv : ∀ fuel,
    StatementInv fuel ∧ IfStatementInv fuel ∧ BlockOrStatementInv fuel ∧
    BlockItemsInv fuel ∧ AssignmentInv fuel ∧ ExprInv fuel ∧ ExprOpsInv fuel ∧
    TermInv fuel ∧ TermOpsInv fuel ∧ FactorInv fuel ∧ ProgramItemsInv fuel := by
  intro fuel
  induction fuel with
  | zero =>
    refine ⟨?_, ?_, ?_, ?_, ?_, ?_, ?_, ?_, ?_, ?_, ?_⟩
    · intro ts n ts' h; exact nomatch h
    · intro ts n ts' h; exact nomatch h
    · intro ts n ts' h; exact nomatch h
    · intro acc ts ns ts' h; exact nomatch h
    · intro ts n ts' h; exact nomatch h
    · intro ts n ts' h; exact nomatch h
    · intro acc ts n ts' h; exact nomatch h
    · intro ts n ts' h; exact nomatch h
    · intro acc ts n ts' h; exact nomatch h
    · intro ts n ts' h; exact nomatch h
    · intro acc ts n ts' h; exact nomatch h
  | succ f ih =>
    obtain ⟨ihS, ihI, ihB, ihBI, ihA, ihE, ihEO, ihT, ihTO, ihF, ihP⟩ := ih
    have hFactor : FactorInv (f + 1) := by
      intro ts n ts' h hall
      match ts with
      | [] => exact nomatch h
      | (k, v) :: rest =>
        simp only [Parser.factor] at h
        split at h
        · injection h with h1
          injection h1 with hn hts
          subst hn; subst hts
          exact ⟨rfl, rfl, List.subset_cons_self _ _⟩
        · split at h
          · injection h with h1
            injection h1 with hn hts
            subst hn; subst hts
            exact ⟨rfl, rfl, List.subset_cons_self _ _⟩
          · split at h
            · obtain ⟨⟨e0, ts1⟩, hE1, h2⟩ := exbind_eq_ok h
              obtain ⟨ts2, hX, h3⟩ := exbind_eq_ok h2
              injection h3 with h4
              injection h4 with hn hts
              subst hn; subst hts
              have hallr : ∀ tok ∈ rest, opLexemeOK tok = true :=
                fun tok htok => hall tok (List.mem_cons_of_mem _ htok)
              obtain ⟨hwf, hne, hsub⟩ := ihE rest e0 ts1 hE1 hallr
              have hsub2 := expect_sub hX
              exact ⟨hwf, hne, List.Subset.trans (List.Subset.trans hsub2 hsub)
                (List.subset_cons_self _ _)⟩
            · exact nomatch h
    have hTermOps : TermOpsInv (f + 1) := by
      intro acc ts n ts' h hall hacc hne
      match ts with
      | [] =>
        injection h with h1
        injection h1 with hn hts
        subst hn; subst hts
        exact ⟨hacc, hne, List.Subset.refl _⟩
      | (k, v) :: rest =>
        simp only [Parser.termOps] at h
        split at h
        next hguard =>
          obtain ⟨⟨rhs, ts1⟩, hFa, h2⟩ := exbind_eq_ok h
          have hallr : ∀ tok ∈ rest, opLexemeOK tok = true :=
            fun tok htok => hall tok (List.mem_cons_of_mem _ htok)
          obtain ⟨hwfr, hner, hsubr⟩ := ihF rest rhs ts1 hFa hallr
          have hop : opInSet v = true :=
            opInSet_of_mul (hall (k, v) (List.mem_cons_self _ _)) hguard
          have hwfb : astWF (.binop acc v rhs) = true := by
            simp [astWF, hop, hacc, hwfr]
          have hneb : noElseNode (.binop acc v rhs) = true := by
            simp [noElseNode, hne, hner]
          have hall1 : ∀ tok ∈ ts1, opLexemeOK tok = true :=
            fun tok htok => hallr tok (hsubr htok)
          replace h2 : Parser.termOps f (.binop acc v rhs) ts1 = .ok (n, ts') := h2
          obtain ⟨hwf2, hne2, hsub2⟩ := ihTO (.binop acc v rhs) ts1 n ts' h2 hall1 hwfb hneb
          exact ⟨hwf2, hne2, List.Subset.trans (List.Subset.trans hsub2 hsubr)
            (List.subset_cons_self _ _)⟩
        next hguard =>
          injection h with h1
          injection h1 with hn hts
          subst hn; subst hts
          exact ⟨hacc, hne, List.Subset.refl _⟩
    have hTerm : TermInv (f + 1) := by
      intro ts n ts' h hall
      simp only [Parser.term] at h
      obtain ⟨⟨x, ts1⟩, hFa, h2⟩ := exbind_eq_ok h
      obtain ⟨hwfx, hnex, hsubx⟩ := ihF ts x ts1 hFa hall
      have hall1 : ∀ tok ∈ ts1, opLexemeOK tok = true :=
        fun tok htok => hall tok (hsubx htok)
      replace h2 : Parser.termOps f x ts1 = .ok (n, ts') := h2
      obtain ⟨hwf2, hne2, hsub2⟩ := ihTO x ts1 n ts' h2 hall1 hwfx hnex
      exact ⟨hwf2, hne2, List.Subset.trans hsub2 hsubx⟩
    have hExprOps : ExprOpsInv (f + 1) := by
      intro acc ts n ts' h hall hacc hne
      match ts with
      | [] =>
        injection h with h1
        injection h1 with hn hts
        subst hn; subst hts
        exact ⟨hacc, hne, List.Subset.refl _⟩
      | (k, v) :: rest =>
        simp only [Parser.exprOps] at h
        split at h
        next hguard =>
          obtain ⟨⟨rhs, ts1⟩, hFa, h2⟩ := exbind_eq_ok h
          have hallr : ∀ tok ∈ rest, opLexemeOK tok = true :=
            fun tok htok => hall tok (List.mem_cons_of_mem _ htok)
          obtain ⟨hwfr, hner, hsubr⟩ := ihT rest rhs ts1 hFa hallr
          have hop : opInSet v = true :=
            opInSet_of_add (hall (k, v) (List.mem_cons_self _ _)) hguard
          have hwfb : astWF (.binop acc v rhs) = true := by
            simp [astWF, hop, hacc, hwfr]
          have hneb : noElseNode (.binop acc v rhs) = true := by
            simp [noElseNode, hne, hner]
          have hall1 : ∀ tok ∈ ts1, opLexemeOK tok = true :=
            fun tok htok => hallr tok (hsubr htok)
          replace h2 : Parser.exprOps f (.binop acc v rhs) ts1 = .ok (n, ts') := h2
          obtain ⟨hwf2, hne2, hsub2⟩ := ihEO (.binop acc v rhs) ts1 n ts' h2 hall1 hwfb hneb
          exact ⟨hwf2, hne2, List.Subset.trans (List.Subset.trans hsub2 hsubr)
            (List.subset_cons_self _ _)⟩
        next hguard =>
          injection h with h1
          injection h1 with hn hts
          subst hn; subst hts
          exact ⟨hacc, hne, List.Subset.refl _⟩
    have hExpr : ExprInv (f + 1) := by
      intro ts n ts' h hall
      simp only [Parser.expr] at h
      obtain ⟨⟨x, ts1⟩, hFa, h2⟩ := exbind_eq_ok h
      obtain ⟨hwfx, hnex, hsubx⟩ := ihT ts x ts1 hFa hall
      have hall1 : ∀ tok ∈ ts1, opLexemeOK tok = true :=
        fun tok htok => hall tok (hsubx htok)
      replace h2 : Parser.exprOps f x ts1 = .ok (n, ts') := h2
      obtain ⟨hwf2, hne2, hsub2⟩ := ihEO x ts1 n ts' h2 hall1 hwfx hnex
      exact ⟨hwf2, hne2, List.Subset.trans hsub2 hsubx⟩
    have hAssignment : AssignmentInv (f + 1) := by
      intro ts n ts' h hall
      match ts with
      | [] => exact nomatch h
      | (k0, v) :: rest =>
        simp only [Parser.assignment] at h
        obtain ⟨ts1, h1, h2⟩ := exbind_eq_ok h
        obtain ⟨ts2, hA2, h3⟩ := exbind_eq_ok h2
        obtain ⟨⟨val, ts3⟩, hE3, h4⟩ := exbind_eq_ok h3
        obtain ⟨ts4, hS4, h5⟩ := exbind_eq_ok h4
        injection h5 with h6
        injection h6 with hn hts
        subst hn; subst hts
        have hsub1 := expect_sub h1
        have hall1 : ∀ tok ∈ ts1, opLexemeOK tok = true :=
          fun tok htok => hall tok (hsub1 htok)
        have hsub2 := expect_sub hA2
        have hall2 : ∀ tok ∈ ts2, opLexemeOK tok = true :=
          fun tok htok => hall1 tok (hsub2 htok)
        obtain ⟨hwfv, hnev, hsub3⟩ := ihE ts2 val ts3 hE3 hall2
        have hsub4 := expect_sub hS4
        refine ⟨?_, ?_, ?_⟩
        · simp [astWF, isIdentNode, hwfv]
        · simp [noElseNode, hnev]
        · exact List.Subset.trans hsub4 (List.Subset.trans hsub3
            (List.Subset.trans hsub2 hsub1))
    have hIf : IfStatementInv (f + 1) := by
      intro ts n ts' h hall
      simp only [Parser.if_statement] at h
      obtain ⟨ts1, h1, h2⟩ := exbind_eq_ok h
      obtain ⟨ts2, hLp, h3⟩ := exbind_eq_ok h2
      obtain ⟨⟨cond, ts3⟩, hE3, h4⟩ := exbind_eq_ok h3
      obtain ⟨ts4, hRp, h5⟩ := exbind_eq_ok h4
      obtain ⟨⟨thenB, ts5⟩, hB5, h6⟩ := exbind_eq_ok h5
      have hsub1 := expect_sub h1
      have hall1 : ∀ tok ∈ ts1, opLexemeOK tok = true :=
        fun tok htok => hall tok (hsub1 htok)
      have hsub2 := expect_sub hLp
      have hall2 : ∀ tok ∈ ts2, opLexemeOK tok = true :=
        fun tok htok => hall1 tok (hsub2 htok)
      obtain ⟨hwfc, hnec, hsub3⟩ := ihE ts2 cond ts3 hE3 hall2
      have hall3 : ∀ tok ∈ ts3, opLexemeOK tok = true :=
        fun tok htok => hall2 tok (hsub3 htok)
      have hsub4 := expect_sub hRp
      have hall4 : ∀ tok ∈ ts4, opLexemeOK tok = true :=
        fun tok htok => hall3 tok (hsub4 htok)
      obtain ⟨hwft, hnet, hsub5⟩ := ihB ts4 thenB ts5 hB5 hall4
      have hsub4' : ts4 ⊆ ts :=
        List.Subset.trans hsub4 (List.Subset.trans hsub3 (List.Subset.trans hsub2 hsub1))
      have hsub5' : ts5 ⊆ ts := List.Subset.trans hsub5 hsub4'
      have hall5 : ∀ tok ∈ ts5, opLexemeOK tok = true :=
        fun tok htok => hall tok (hsub5' htok)
      cases ts5 with
      | nil =>
        injection h6 with h7
        injection h7 with hn hts
        subst hn; subst hts
        refine ⟨?_, ?_, List.nil_subset _⟩
        · simp [astWF, astWFOpt, hwfc, hwft]
        · intro hnoelse
          have hnet' := hnet (fun tok htok => hnoelse tok (hsub4' htok))
          simp [noElseNode, hnec, hnet']
      | cons tk rest5 =>
        obtain ⟨k5, u5⟩ := tk
        replace h6 : (if (k5 == "ELSE") = true then
              Parser.block_or_statement f rest5 >>= fun x =>
                Except.ok (Node.ifStmt cond thenB (some x.1), x.2)
            else Except.ok (Node.ifStmt cond thenB none, (k5, u5) :: rest5)) =
            Except.ok (n, ts') := h6
        split at h6
        next hguard =>
          obtain ⟨⟨elseB, ts6⟩, hB6, h7⟩ := exbind_eq_ok h6
          injection h7 with h8
          injection h8 with hn hts
          subst hn; subst hts
          have hallr5 : ∀ tok ∈ rest5, opLexemeOK tok = true :=
            fun tok htok => hall5 tok (List.mem_cons_of_mem _ htok)
          obtain ⟨hwfe, hnee, hsub6⟩ := ihB rest5 elseB ts6 hB6 hallr5
          refine ⟨?_, ?_, ?_⟩
          · simp [astWF, astWFOpt, hwfc, hwft, hwfe]
          · intro hnoelse
            exact absurd (eq_of_beq hguard)
              (hnoelse (k5, u5) (hsub5' (List.mem_cons_self _ _)))
          · exact List.Subset.trans hsub6
              (List.Subset.trans (List.subset_cons_self _ _) hsub5')
        next hguard =>
          injection h6 with h7
          injection h7 with hn hts
          subst hn; subst hts
          refine ⟨?_, ?_, hsub5'⟩
          · simp [astWF, astWFOpt, hwfc, hwft]
          · intro hnoelse
            have hnet' := hnet (fun tok htok => hnoelse tok (hsub4' htok))
            simp [noElseNode, hnec, hnet']
    have hBos : BlockOrStatementInv (f + 1) := by
      intro ts n ts' h hall
      match ts with
      | [] =>
        replace h : Parser.statement f [] = .ok (n, ts') := h
        exact ihS [] n ts' h hall
      | (k, v) :: rest =>
        simp only [Parser.block_or_statement] at h
        split at h
        next hguard =>
          obtain ⟨ts1, h1, h2⟩ := exbind_eq_ok h
          obtain ⟨⟨stmts, ts2⟩, hBI2, h3⟩ := exbind_eq_ok h2
          obtain ⟨ts3, hR, h4⟩ := exbind_eq_ok h3
          injection h4 with h5
          injection h5 with hn hts
          subst hn; subst hts
          have hsub1 := expect_sub h1
          have hall1 : ∀ tok ∈ ts1, opLexemeOK tok = true :=
            fun tok htok => hall tok (hsub1 htok)
          obtain ⟨hwfL, hneL, hsub2⟩ := ihBI [] ts1 stmts ts2 hBI2 hall1
          have hsub3 := expect_sub hR
          refine ⟨?_, ?_, ?_⟩
          · simp only [astWF]
            exact hwfL rfl
          · intro hnoelse
            have hne1 : ∀ tok ∈ ts1, tok.1 ≠ "ELSE" :=
              fun tok htok => hnoelse tok (hsub1 htok)
            simp only [noElseNode]
            exact hneL hne1 rfl
          · exact List.Subset.trans hsub3 (List.Subset.trans hsub2 hsub1)
        next hguard =>
          replace h : Parser.statement f ((k, v) :: rest) = .ok (n, ts') := h
          exact ihS _ n ts' h hall
    have hStatement : StatementInv (f + 1) := by
      intro ts n ts' h hall
      match ts with
      | [] => exact nomatch h
      | (k, v) :: rest =>
        simp only [Parser.statement] at h
        split at h
        next hguard =>
          replace h : Parser.if_statement f ((k, v) :: rest) = .ok (n, ts') := h
          exact ihI _ n ts' h hall
        next hguard =>
          split at h
          next hguard2 =>
            replace h : Parser.assignment f ((k, v) :: rest) = .ok (n, ts') := h
            obtain ⟨hwf, hne, hsub⟩ := ihA _ n ts' h hall
            exact ⟨hwf, fun _ => hne, hsub⟩
          next hguard2 =>
            obtain ⟨⟨e0, ts1⟩, hE1, h2⟩ := exbind_eq_ok h
            obtain ⟨ts2, hS2, h3⟩ := exbind_eq_ok h2
            injection h3 with h4
            injection h4 with hn hts
            subst hn; subst hts
            obtain ⟨hwf, hne, hsub1⟩ := ihE _ e0 ts1 hE1 hall
            have hsub2 := expect_sub hS2
            exact ⟨hwf, fun _ => hne, List.Subset.trans hsub2 hsub1⟩
    have hBlockItems : BlockItemsInv (f + 1) := by
      intro acc ts ns ts' h hall
      match ts with
      | [] =>
        injection h with h1
        injection h1 with hn hts
        subst hn; subst hts
        exact ⟨id, fun _ => id, List.Subset.refl _⟩
      | (k, v) :: rest =>
        simp only [Parser.blockItems] at h
        split at h
        next hguard =>
          injection h with h1
          injection h1 with hn hts
          subst hn; subst hts
          exact ⟨id, fun _ => id, List.Subset.refl _⟩
        next hguard =>
          obtain ⟨⟨s0, ts1⟩, hS1, h2⟩ := exbind_eq_ok h
          obtain ⟨hwfs, hnes, hsub1⟩ := ihS _ s0 ts1 hS1 hall
          have hall1 : ∀ tok ∈ ts1, opLexemeOK tok = true :=
            fun tok htok => hall tok (hsub1 htok)
          replace h2 : Parser.blockItems f (acc ++ [s0]) ts1 = .ok (ns, ts') := h2
          obtain ⟨hwfL, hneL, hsub2⟩ := ihBI (acc ++ [s0]) ts1 ns ts' h2 hall1
          refine ⟨?_, ?_, List.Subset.trans hsub2 hsub1⟩
          · intro haccwf
            apply hwfL
            rw [astWFList_append]
            simp [haccwf, hwfs]
          · intro hnoelse haccne
            apply hneL (fun tok htok => hnoelse tok (hsub1 htok))
            rw [noElseList_append]
            simp [haccne, hnes hnoelse]
    have hProgramItems : ProgramItemsInv (f + 1) := by
      intro acc ts n ts' h hall
      match ts with
      | [] =>
        injection h with h1
        injection h1 with hn hts
        subst hn; subst hts
        refine ⟨?_, ?_, List.Subset.refl _⟩
        · intro ha
          simp only [astWF]
          exact ha
        · intro _ ha
          simp only [noElseNode]
          exact ha
      | (k, v) :: rest =>
        simp only [Parser.programItems] at h
        obtain ⟨⟨s0, ts1⟩, hS1, h2⟩ := exbind_eq_ok h
        obtain ⟨hwfs, hnes, hsub1⟩ := ihS _ s0 ts1 hS1 hall
        have hall1 : ∀ tok ∈ ts1, opLexemeOK tok = true :=
          fun tok htok => hall tok (hsub1 htok)
        replace h2 : Parser.programItems f (acc ++ [s0]) ts1 = .ok (n, ts') := h2
        obtain ⟨hwfL, hneL, hsub2⟩ := ihP (acc ++ [s0]) ts1 n ts' h2 hall1
        refine ⟨?_, ?_, List.Subset.trans hsub2 hsub1⟩
        · intro haccwf
          apply hwfL
          rw [astWFList_append]
          simp [haccwf, hwfs]
        · intro hnoelse haccne
          apply hneL (fun tok htok => hnoelse tok (hsub1 htok))
          rw [noElseList_append]
          simp [haccne, hnes hnoelse]
    exact ⟨hStatement, hIf, hBos, hBlockItems, hAssignment, hExpr, hExprOps,
      hTerm, hTermOps, hFactor, hProgramItems⟩

/-! Claim theorems. -/

/-- C3: multiplicative operators bind tighter than the shared
additive and comparison level: the pipeline turns "1 + 2 * 3;" into
exactly "(1 + (2 * 3))". -/
theorem claim_C3_precedence : compile "1 + 2 * 3;" = .ok "(1 + (2 * 3))" := by
  rw [compile_eq_compileF]; decide

/-- C4: assignment round-trip at the public boundary: the pipeline maps
"x = 5;" to exactly "x = 5;". -/
theorem claim_C4_assignment_roundtrip : compile "x = 5;" = .ok "x = 5;" := by
  rw [compile_eq_compileF]; decide

/-- C8: the pipeline on "if (x) y = 1" fails with the expect-style syntax
error naming the SEMICOLON kind and the end of input, and returns no
generated text. -/
theorem claim_C8_missing_semicolon :
    compile "if (x) y = 1" = .error "Esperado \x27SEMICOLON\x27 mas encontrado \x27EOF\x27" ∧
      ∀ out : String, compile "if (x) y = 1" ≠ .ok out := by
  have h1 : compile "if (x) y = 1" = .error "Esperado \x27SEMICOLON\x27 mas encontrado \x27EOF\x27" := by
    rw [compile_eq_compileF]; decide
  refine ⟨h1, ?_⟩
  intro out hout
  rw [h1] at hout
  cases hout

/-- C2 counterexample: an IfStatement whose else branch is present but is
an empty Block renders with no else part at all, because the generator
tests the rendered else string, not the presence of the branch. -/
theorem claim_C2_counterexample :
    generate_code (.ifStmt (.ident "x") (.ident "y") (some (.block []))) =
        some "if (x) \x7b\n  y\n\x7d" ∧
      "if (x) \x7b\n  y\n\x7d" ≠
        "if (x) \x7b\n  y\n\x7d else \x7b\n  \n\x7d" := by
  exact ⟨rfl, by decide⟩

/-- C2 amended: generate renders an IfStatement as the if-header plus the
then block, followed by the else part exactly when the else branch is
present and its rendering is a non-empty string. -/
theorem claim_C2_if_rendering (c tb e : Node) (cs ts es : String)
    (hc : generate_code c = some cs) (ht : generate_code tb = some ts)
    (he : generate_code e = some es) :
    generate_code (.ifStmt c tb none) =
        some ("if (" ++ cs ++ ") \x7b\n  " ++ ts ++ "\n\x7d") ∧
      generate_code (.ifStmt c tb (some e)) =
        some ("if (" ++ cs ++ ") \x7b\n  " ++ ts ++ "\n\x7d" ++
          (if es = "" then "" else " else \x7b\n  " ++ es ++ "\n\x7d")) := by
  constructor
  · simp [generate_code, hc, ht]
  · simp only [generate_code, hc, ht, he, Option.bind_some, Option.some_bind]
    simp [beq_iff_eq]

/-- C2 witness: the amended rendering equation evaluated at a concrete
IfStatement with a present, empty-Block else branch. -/
theorem claim_C2_if_rendering_witness :
    generate_code (.ifStmt (.ident "x") (.ident "y") (some (.block []))) =
      some ("if (" ++ "x" ++ ") \x7b\n  " ++ "y" ++ "\n\x7d" ++
        (if "" = "" then "" else " else \x7b\n  " ++ "" ++ "\n\x7d")) :=
  (claim_C2_if_rendering (.ident "x") (.ident "y") (.block []) "x" "y" "" rfl rfl rfl).2

/-- C7 counterexample: the pipeline on "1 +;" fails with the factor error,
which names the actual token but no expected token kind. -/
theorem claim_C7_counterexample :
    compile "1 +;" = .error "Erro de sintaxe: token inesperado \x27;\x27" ∧
      ¬ ("NUMBER".data <:+: "Erro de sintaxe: token inesperado \x27;\x27".data) ∧
      ¬ ("IDENTIFIER".data <:+: "Erro de sintaxe: token inesperado \x27;\x27".data) ∧
      ¬ ("LPAREN".data <:+: "Erro de sintaxe: token inesperado \x27;\x27".data) ∧
      (";".data <:+: "Erro de sintaxe: token inesperado \x27;\x27".data) := by
  refine ⟨?_, by decide, by decide, by decide, by decide⟩
  rw [compile_eq_compileF]; decide

/-- C7 amended: Factor fails whenever it is entered with no current token
or with a token that is none of number, identifier or left parenthesis;
the error names the actual token lexeme, or says the input ended, but does
not name the expected kinds.  In particular the pipeline on "1 +;" fails
with such an error rather than returning a string. -/
theorem claim_C7_factor_errors (fuel : Nat) (k v : String) (rest : List Token)
    (h1 : k ≠ "NUMBER") (h2 : k ≠ "IDENTIFIER") (h3 : k ≠ "LPAREN") :
    Parser.factor (fuel + 1) [] =
        .error "Erro de sintaxe: token inesperado no final da entrada" ∧
      Parser.factor (fuel + 1) ((k, v) :: rest) =
        .error ("Erro de sintaxe: token inesperado \x27" ++ v ++ "\x27") ∧
      compile "1 +;" = .error "Erro de sintaxe: token inesperado \x27;\x27" := by
  refine ⟨rfl, ?_, ?_⟩
  · simp [Parser.factor, h1, h2, h3]
  · rw [compile_eq_compileF]; decide

/-- C7 witness: the amended factor failure description evaluated at the
semicolon token reached by "1 +;". -/
theorem claim_C7_factor_errors_witness :
    Parser.factor 1 [] =
        .error "Erro de sintaxe: token inesperado no final da entrada" ∧
      Parser.factor 1 [("SEMICOLON", ";")] =
        .error ("Erro de sintaxe: token inesperado \x27" ++ ";" ++ "\x27") ∧
      compile "1 +;" = .error "Erro de sintaxe: token inesperado \x27;\x27" :=
  claim_C7_factor_errors 0 "SEMICOLON" ";" [] (by decide) (by decide) (by decide)

/-- C9: the lexer is total: it produces a finite token list, at most one
token per character, on every input; a position where no lexical pattern
matches is silently skipped, producing no token and no error; and
unrecognized characters such as the at sign and the hash are skipped while
the rest of the input continues to tokenize normally. -/
theorem claim_C9_lexer_total_skips (s : String) (p q : Bool) (c : Char)
    (cs ds : List Char) (h : noPatternAt p c cs = true) :
    (lex s).length ≤ s.data.length ∧
      lexAux p (c :: cs) = lexAux false cs ∧
      lexAux q ('@' :: ds) = lexAux false ds ∧
      lexAux q ('#' :: ds) = lexAux false ds := by
  refine ⟨lexAux_length_le s.data false, ?_, ?_, ?_⟩
  · exact lexAux_step_none (lexDecide_noPattern h)
  · exact lexAux_step_none rfl
  · exact lexAux_step_none rfl

/-- C9 witness: the skip behavior evaluated at the at sign between two
identifiers. -/
theorem claim_C9_lexer_total_skips_witness :
    (lex "a @ b").length ≤ ("a @ b" : String).data.length ∧
      lexAux false ('@' :: [' ', 'b']) = lexAux false [' ', 'b'] ∧
      lexAux true ('@' :: [' ', 'b']) = lexAux false [' ', 'b'] ∧
      lexAux true ('#' :: [' ', 'b']) = lexAux false [' ', 'b'] :=
  claim_C9_lexer_total_skips "a @ b" false true '@' [' ', 'b'] [' ', 'b'] (by decide)

/-- C10: keyword matching respects word boundaries: a valid identifier
that merely begins with "if" or "else" lexes to a single IDENTIFIER token
carrying the full name, never to a keyword token plus a remainder. -/
theorem claim_C10_keyword_boundary (name : String) (h1 : isValidIdent name = true)
    (h2 : name ≠ "if") (h3 : name ≠ "else")
    (h4 : List.isPrefixOf "if".data name.data = true ∨
      List.isPrefixOf "else".data name.data = true) :
    lex name = [("IDENTIFIER", name)] := by
  unfold lex
  unfold isValidIdent at h1
  cases hd : name.data with
  | nil =>
    rw [hd] at h1
    simp at h1
  | cons w ws =>
    rw [hd] at h1
    have h1' : isIdentStart w = true ∧ ws.all isWordChar = true := by
      simpa [Bool.and_eq_true] using h1
    have hall : ∀ x ∈ w :: ws, isWordChar x = true := by
      intro x hx
      rcases List.mem_cons.mp hx with rfl | hx'
      · exact wordChar_of_identStart h1'.1
      · exact List.all_eq_true.mp h1'.2 x hx'
    have hnotif : w :: ws ≠ ['i', 'f'] := by
      intro he
      apply h2
      have hde : name.data = "if".data := by rw [hd, he]
      exact congrArg String.mk hde
    have hnotelse : w :: ws ≠ ['e', 'l', 's', 'e'] := by
      intro he
      apply h3
      have hde : name.data = "else".data := by rw [hd, he]
      exact congrArg String.mk hde
    have hrun := @lexAux_ident_run w ws h1'.1 hall hnotif hnotelse
      [] (fun c hc => by simp at hc) false
    rw [List.append_nil] at hrun
    rw [hrun, lexAux_nil]
    have hmk : (⟨w :: ws⟩ : String) = name := by
      rw [← hd]
    rw [hmk]

/-- C10 witness: the name "ify" lexes to one identifier token. -/
theorem claim_C10_keyword_boundary_witness : lex "ify" = [("IDENTIFIER", "ify")] :=
  claim_C10_keyword_boundary "ify" (by decide) (by decide) (by decide)
    (Or.inl (by decide))

/-- The pipeline on one binary expression statement over two integer
literals, for any operator whose lexeme lexes to a single operator token
and parses at either precedence level. -/
theorem compile_binop_case (a b : Nat) (K opstr : String) (opchars : List Char)
    (hne : opchars ≠ [])
    (hdata : opstr.data = opchars)
    (hlexop : ∀ rest, lexAux false (opchars ++ rest) = (K, opstr) :: lexAux false rest)
    (hsp : ∀ c, opchars.head? = some c → isSpaceChar c = false)
    (hparse : Parser.parse [("NUMBER", natStr a), (K, opstr), ("NUMBER", natStr b),
        ("SEMICOLON", ";")] =
      .ok (.block [.binop (.num (strToInt (natStr a))) opstr (.num (strToInt (natStr b)))])) :
    compile (natStr a ++ " " ++ opstr ++ " " ++ natStr b ++ ";") =
      .ok ("(" ++ natStr a ++ " " ++ opstr ++ " " ++ natStr b ++ ")") := by
  have h0 : (natStr a ++ " " ++ opstr ++ " " ++ natStr b ++ ";").data
      = natDigits a ++ [' '] ++ opstr.data ++ [' '] ++ natDigits b ++ [';'] := rfl
  have hdata2 : (natStr a ++ " " ++ opstr ++ " " ++ natStr b ++ ";").data
      = natDigits a ++ (' ' :: (opchars ++ (' ' :: (natDigits b ++ [';'])))) := by
    rw [h0, hdata]
    simp [List.append_assoc]
  have hhd_space_b : ∀ c, (natDigits b ++ [';']).head? = some c → isSpaceChar c = false := by
    intro c hc
    cases hnb : natDigits b with
    | nil => exact absurd hnb (natDigits_ne_nil b)
    | cons d db =>
      rw [hnb, List.cons_append, List.head?_cons] at hc
      injection hc with hc'
      subst hc'
      exact not_space_of_digit
        (natDigits_all_digits b d (by rw [hnb]; exact List.mem_cons_self d db))
  have hsemi_hd : ∀ c, ([';'] : List Char).head? = some c → isDigitChar c = false := by
    intro c hc
    rw [List.head?_cons] at hc
    injection hc with hc'
    subst hc'
    decide
  have htail : ∀ p : Bool, lexAux p (' ' :: (natDigits b ++ [';'])) =
      [("NUMBER", natStr b), ("SEMICOLON", ";")] := by
    intro p
    rw [lexAux_one_space hhd_space_b,
      lexAux_digit_run (natDigits_ne_nil b) (natDigits_all_digits b) hsemi_hd,
      lexAux_step_some (lexDecide_semicolon true []), lexAux_nil]
    rfl
  have hsp1 : ∀ c, (' ' :: (opchars ++ (' ' :: (natDigits b ++ [';'])))).head? = some c →
      isDigitChar c = false := by
    intro c hc
    rw [List.head?_cons] at hc
    injection hc with hc'
    subst hc'
    decide
  have hsp2 : ∀ c, (opchars ++ (' ' :: (natDigits b ++ [';']))).head? = some c →
      isSpaceChar c = false := by
    cases opchars with
    | nil => exact absurd rfl hne
    | cons o os =>
      intro c hc
      rw [List.cons_append, List.head?_cons] at hc
      injection hc with hc'
      subst hc'
      exact hsp o rfl
  have hlex : lex (natStr a ++ " " ++ opstr ++ " " ++ natStr b ++ ";")
      = [("NUMBER", natStr a), (K, opstr), ("NUMBER", natStr b), ("SEMICOLON", ";")] := by
    unfold lex
    rw [hdata2,
      lexAux_digit_run (natDigits_ne_nil a) (natDigits_all_digits a) hsp1 false,
      lexAux_one_space hsp2, hlexop (' ' :: (natDigits b ++ [';'])), htail false]
    rfl
  have hstep : compile (natStr a ++ " " ++ opstr ++ " " ++ natStr b ++ ";")
      = match generate_code (.block [.binop (.num (strToInt (natStr a))) opstr
          (.num (strToInt (natStr b)))]) with
        | some out => Except.ok out
        | none => Except.error "AttributeError: no atribuido sem nome" := by
    unfold compile
    rw [hlex, hparse]
  have hgen : generate_code (.block [.binop (.num (strToInt (natStr a))) opstr
      (.num (strToInt (natStr b)))])
      = some ("(" ++ intToString (strToInt (natStr a)) ++ " " ++ opstr ++ " " ++
          intToString (strToInt (natStr b)) ++ ")") := rfl
  rw [hstep, hgen, strToInt_natStr, strToInt_natStr, intToString_ofNat, intToString_ofNat]

/-- C1 amended: for every pair of integer literals and every operator in
the set whose lexemes the lexer can actually read back, namely the eight
lexemes excluding less-or-equal and greater-or-equal, the pipeline on
"a op b;" succeeds and returns exactly "(a op b)". -/
theorem claim_C1_expr_statement (a b : Nat) (op : String)
    (hop : op ∈ (["+", "-", "*", "/", "==", "!=", "<", ">"] : List String)) :
    compile (natStr a ++ " " ++ op ++ " " ++ natStr b ++ ";") =
      .ok ("(" ++ natStr a ++ " " ++ op ++ " " ++ natStr b ++ ")") := by
  simp only [List.mem_cons, List.not_mem_nil, or_false] at hop
  rcases hop with rfl | rfl | rfl | rfl | rfl | rfl | rfl | rfl
  · exact compile_binop_case a b "PLUS" "+" ['+'] (by decide) rfl
      (fun rest => lexAux_step_some (lexDecide_plus false rest))
      (fun c hc => by rw [List.head?_cons] at hc; injection hc with hc'; subst hc'; decide) rfl
  · exact compile_binop_case a b "MINUS" "-" ['-'] (by decide) rfl
      (fun rest => lexAux_step_some (lexDecide_minus false rest))
      (fun c hc => by rw [List.head?_cons] at hc; injection hc with hc'; subst hc'; decide) rfl
  · exact compile_binop_case a b "MULTIPLY" "*" ['*'] (by decide) rfl
      (fun rest => lexAux_step_some (lexDecide_star false rest))
      (fun c hc => by rw [List.head?_cons] at hc; injection hc with hc'; subst hc'; decide) rfl
  · exact compile_binop_case a b "DIVIDE" "/" ['/'] (by decide) rfl
      (fun rest => lexAux_step_some (lexDecide_slash false rest))
      (fun c hc => by rw [List.head?_cons] at hc; injection hc with hc'; subst hc'; decide) rfl
  · exact compile_binop_case a b "EQ" "==" ['=', '='] (by decide) rfl
      (fun rest => lexAux_step_some (lexDecide_eqeq false rest))
      (fun c hc => by rw [List.head?_cons] at hc; injection hc with hc'; subst hc'; decide) rfl
  · exact compile_binop_case a b "NEQ" "!=" ['!', '='] (by decide) rfl
      (fun rest => lexAux_step_some (lexDecide_neq false rest))
      (fun c hc => by rw [List.head?_cons] at hc; injection hc with hc'; subst hc'; decide) rfl
  · exact compile_binop_case a b "LT" "<" ['<'] (by decide) rfl
      (fun rest => lexAux_step_some (lexDecide_lt false rest))
      (fun c hc => by rw [List.head?_cons] at hc; injection hc with hc'; subst hc'; decide) rfl
  · exact compile_binop_case a b "GT" ">" ['>'] (by decide) rfl
      (fun rest => lexAux_step_some (lexDecide_gt false rest))
      (fun c hc => by rw [List.head?_cons] at hc; injection hc with hc'; subst hc'; decide) rfl

/-- C1 witness: the amended statement evaluated at 12 + 3. -/
theorem claim_C1_expr_statement_witness : compile "12 + 3;" = .ok "(12 + 3)" :=
  claim_C1_expr_statement 12 3 "+" (by decide)

/-- C1 counterexample: for the less-or-equal lexeme the pipeline fails,
because the LT pattern is tried before LE, so the two characters lex as
the less-than and assignment tokens and the factor after the comparison
is the assignment sign. -/
theorem claim_C1_counterexample :
    compile "1 <= 2;" = .error "Erro de sintaxe: token inesperado \x27=\x27" ∧
      compile "1 >= 2;" = .error "Erro de sintaxe: token inesperado \x27=\x27" := by
  constructor
  · rw [compile_eq_compileF]; decide
  · rw [compile_eq_compileF]; decide

/-- C5 counterexample to the claim as stated: the generator's output for
a BinOp tree carries no trailing semicolon, so re-tokenizing and
re-parsing it fails with an expect error instead of regenerating the
same string; and for a BinOp tree whose operator is "<=", even with a
semicolon appended the re-parse fails, because "<=" re-tokenizes as LT
then ASSIGN. -/
theorem claim_C5_counterexample :
    compile (gstr (.binop (.num 1) "+" (.num 2))) =
        .error "Esperado \x27SEMICOLON\x27 mas encontrado \x27EOF\x27" ∧
      compile (gstr (.binop (.num 1) "<=" (.num 2)) ++ ";") =
        .error "Erro de sintaxe: token inesperado \x27=\x27" := by
  constructor
  · rw [compile_eq_compileF]; decide
  · rw [compile_eq_compileF]; decide

/-- C5, amended: full parenthesization is a fixed point once the
generator's output is turned back into a statement by appending a
semicolon, for BinOp trees over the eight operator lexemes the lexer can
re-tokenize and well-formed leaves: the pipeline on gstr t followed by a
semicolon returns exactly gstr t. -/
theorem claim_C5_fixed_point (t : Node) (h1 : exprWF t = true)
    (h2 : isBinOpNode t = true) :
    compile (gstr t ++ ";") = .ok (gstr t) := by
  have hsep : sepOK t [';'] := by
    intro c hc
    have hc' : c = ';' := by
      have hh : (some ';' : Option Char) = some c := hc
      injection hh with hh1
      exact hh1.symm
    subst hc'
    cases t <;> first | trivial | decide
  have hlex : lex (gstr t ++ ";") = exprTokens t ++ [("SEMICOLON", ";")] := by
    have hd : (gstr t ++ ";").data = (gstr t).data ++ [';'] := rfl
    unfold lex
    rw [hd, lex_gstr t h1 false [';'] hsep,
      lexAux_step_some (lexDecide_semicolon (endsWord t) []), lexAux_nil]
  have hstep : compile (gstr t ++ ";") =
      match generate_code (Node.block [t]) with
      | some out => Except.ok out
      | none => Except.error "AttributeError: no atribuido sem nome" := by
    unfold compile
    rw [hlex, parse_program_semi t h1]
  rw [hstep, generate_block_single t h1]

/-- Witness for C5 at the tree (1 + 2). -/
theorem claim_C5_fixed_point_witness :
    compile (gstr (.binop (.num 1) "+" (.num 2)) ++ ";") =
      .ok (gstr (.binop (.num 1) "+" (.num 2))) :=
  claim_C5_fixed_point _ (by decide) (by decide)

/-- C6: every AST returned by a successful parse of lexed source
satisfies the data-model invariants astWF (every Assignment target is an
Identifier node and every BinOp operator lies in the fixed ten-operator
set), and an IfStatement carries an else branch only if an ELSE token
was there to be parsed: with no ELSE token in the token stream, no node
of the result has an else branch. -/
theorem claim_C6_parser_invariants (s : String) (ast : Node)
    (hp : Parser.parse (lex s) = .ok ast) :
    astWF ast = true ∧
      ((∀ tok ∈ lex s, tok.1 ≠ "ELSE") → noElseNode ast = true) := by
  unfold Parser.parse at hp
  cases hP : Parser.programItems (8 * (lex s).length + 8) [] (lex s) with
  | error e => rw [hP] at hp; exact nomatch hp
  | ok p =>
    obtain ⟨ast0, rem⟩ := p
    rw [hP] at hp
    have hasteq : ast0 = ast := by
      simpa [Except.map] using hp
    subst hasteq
    obtain ⟨h1, h2, _⟩ := (parser_inv (8 * (lex s).length + 8)).2.2.2.2.2.2.2.2.2.2
      [] (lex s) ast0 rem hP (lex_tok_ok s)
    exact ⟨h1 rfl, fun hno => h2 hno rfl⟩

/-- Witness for C6 on the source "x = 5;". -/
theorem claim_C6_parser_invariants_witness :
    astWF (Node.block [Node.assign (.ident "x") (.num 5)]) = true ∧
      ((∀ tok ∈ lex "x = 5;", tok.1 ≠ "ELSE") →
        noElseNode (Node.block [Node.assign (.ident "x") (.num 5)]) = true) :=
  claim_C6_parser_invariants "x = 5;" _ (by rw [lex_eval]; rfl)

end Compilador
